import Mathlib

/-!
# Growth-metrics and market-insight engine: verification

A shallow embedding of the metrics engine of a vehicle-registration
analytics dashboard (src/app.py, src/utils.py), together with theorems
settling the specified properties of `calculate_growth_metrics`,
`calculate_market_metrics`, `identify_trends` and the insight block of
`main`.

Modelling conventions:
* a pandas `DataFrame` is a `List` of record structures;
* float columns that can hold `NaN`/`±inf` are modelled by `PFloat`, whose
  finite values are exact rationals (float rounding is not modelled);
* `groupby(..., sort=True)` sorts the distinct group keys ascending; the
  `Quarter` column holds the strings `"Q1"`…`"Q4"`, whose lexicographic
  order agrees with the numeric order of quarter numbers `1`…`4` used here;
* `Series.pct_change()` inside a `groupby` compares each row with the
  closest preceding row of the same subgroup, in the frame's row order;
* a pandas exception escaping (e.g. `ValueError` from an all-`NaN`
  `idxmax`) is modelled as `Except.error`.
-/

namespace Vahan

/-- Value of a float column entry: `NaN` (pandas missing/absent), `±inf`
(float division by zero), or an exact finite value. -/
inductive PFloat where
  | nan : PFloat
  | inf : PFloat
  | neginf : PFloat
  | val (q : ℚ) : PFloat
deriving DecidableEq

/-- One step of `Series.pct_change() * 100`: `prev = none` means no earlier
row exists in the subgroup (pandas shifts in `NaN`), giving `NaN`; a zero
previous value is a float division by zero, giving `+inf`/`-inf`/`NaN` by
the sign of the numerator; otherwise the exact percent change. -/
def pct (prev : Option ℚ) (cur : ℚ) : PFloat :=
  match prev with
  | none => .nan
  | some p =>
    if p = 0 then
      if 0 < cur then .inf else if cur < 0 then .neginf else .nan
    else .val ((cur - p) / p * 100)

/-- Float division `num / den` (used for shares and ratios expressed as
percentages): zero denominator gives `±inf`/`NaN`, never an error. -/
def fdiv (num den : ℚ) : PFloat :=
  if den = 0 then
    if 0 < num then .inf else if num < 0 then .neginf else .nan
  else .val (num / den)

/-- Strict comparison of float values, as numpy orders them: any comparison
against `NaN` is false; `-inf` below every finite value, `+inf` above. -/
def pfLt : PFloat → PFloat → Bool
  | .nan, _ => false
  | _, .nan => false
  | .neginf, .neginf => false
  | .neginf, _ => true
  | .val _, .neginf => false
  | .val a, .val b => decide (a < b)
  | .val _, .inf => true
  | .inf, _ => false

/-- A row of the table handed to `calculate_growth_metrics`: the chosen
dimension columns (`groupby_cols`) collected into one value of type `δ`,
the derived period columns `Year` and `Quarter`, and the value column. -/
structure Event (δ : Type) where
  dims : δ
  year : Int
  quarter : Nat
  value : ℚ
deriving DecidableEq

/-- A row of `df.groupby(groupby_cols + ['Year','Quarter'])[value].sum()
.reset_index()`. -/
structure AggRow (δ : Type) where
  dims : δ
  year : Int
  quarter : Nat
  value : ℚ
deriving DecidableEq

/-- An aggregated row with the two growth columns attached. -/
structure GRow (δ : Type) where
  dims : δ
  year : Int
  quarter : Nat
  value : ℚ
  yoy : PFloat
  qoq : PFloat
deriving DecidableEq

variable {δ : Type} [LinearOrder δ]

/-- The grouping key `(dims, Year, Quarter)` of a raw row. -/
def Event.key (e : Event δ) : δ × Int × Nat := (e.dims, e.year, e.quarter)

/-- Lexicographic order on grouping keys: the ascending order in which
`groupby(..., sort=True)` emits its groups. -/
def keyLE (a b : δ × Int × Nat) : Prop :=
  a.1 < b.1 ∨ (a.1 = b.1 ∧ (a.2.1 < b.2.1 ∨ (a.2.1 = b.2.1 ∧ a.2.2 ≤ b.2.2)))

instance : DecidableRel (keyLE (δ := δ)) := fun a b => by
  unfold keyLE; infer_instance

instance : IsTotal (δ × Int × Nat) keyLE where
  total a b := by
    rcases lt_trichotomy a.1 b.1 with h | h | h
    · exact Or.inl (Or.inl h)
    · rcases lt_trichotomy a.2.1 b.2.1 with h2 | h2 | h2
      · exact Or.inl (Or.inr ⟨h, Or.inl h2⟩)
      · rcases le_total a.2.2 b.2.2 with h3 | h3
        · exact Or.inl (Or.inr ⟨h, Or.inr ⟨h2, h3⟩⟩)
        · exact Or.inr (Or.inr ⟨h.symm, Or.inr ⟨h2.symm, h3⟩⟩)
      · exact Or.inr (Or.inr ⟨h.symm, Or.inl h2⟩)
    · exact Or.inr (Or.inl h)

instance : IsTrans (δ × Int × Nat) keyLE where
  trans a b c hab hbc := by
    rcases hab with h | ⟨e1, h⟩
    · rcases hbc with h' | ⟨e1', _⟩
      · exact Or.inl (h.trans h')
      · exact Or.inl (e1' ▸ h)
    · rcases hbc with h' | ⟨e1', h'⟩
      · exact Or.inl (e1 ▸ h')
      · refine Or.inr ⟨e1.trans e1', ?_⟩
        rcases h with h2 | ⟨e2, h3⟩
        · rcases h' with h2' | ⟨e2', _⟩
          · exact Or.inl (h2.trans h2')
          · exact Or.inl (e2' ▸ h2)
        · rcases h' with h2' | ⟨e2', h3'⟩
          · exact Or.inl (e2 ▸ h2')
          · exact Or.inr ⟨e2.trans e2', h3.trans h3'⟩

instance : IsAntisymm (δ × Int × Nat) keyLE where
  antisymm a b hab hba := by
    obtain ⟨a1, a2, a3⟩ := a
    obtain ⟨b1, b2, b3⟩ := b
    rcases hab with h | ⟨e1, h⟩
    · rcases hba with h' | ⟨e1', h'⟩
      · exact absurd (h.trans h') (lt_irrefl _)
      · exact absurd h (e1' ▸ lt_irrefl _)
    · rcases hba with h' | ⟨e1', h'⟩
      · exact absurd h' (e1 ▸ lt_irrefl _)
      · rcases h with h2 | ⟨e2, h3⟩
        · rcases h' with h2' | ⟨e2', h3'⟩
          · exact absurd (h2.trans h2') (lt_irrefl _)
          · exact absurd h2 (e2' ▸ lt_irrefl _)
        · rcases h' with h2' | ⟨e2', h3'⟩
          · exact absurd h2' (e2 ▸ lt_irrefl _)
          · simp only [Prod.mk.injEq] at e1 h3 h3' ⊢
            exact ⟨e1, e2, le_antisymm h3 h3'⟩

/-- Distinct grouping keys of the table, in the ascending order produced by
`groupby(groupby_cols + ['Year','Quarter']).sum().reset_index()`. -/
def aggKeys (rows : List (Event δ)) : List (δ × Int × Nat) :=
  List.insertionSort keyLE (rows.map Event.key).dedup

/-- Sum of the value column over the rows of one group. -/
def groupTotal (rows : List (Event δ)) (k : δ × Int × Nat) : ℚ :=
  ((rows.filter fun e => decide (e.key = k)).map Event.value).sum

/-- `df.groupby(groupby_cols + ['Year','Quarter'])[value_col].sum()
.reset_index()`: one aggregated row per distinct key, keys ascending. -/
def grouped (rows : List (Event δ)) : List (AggRow δ) :=
  (aggKeys rows).map fun k => ⟨k.1, k.2.1, k.2.2, groupTotal rows k⟩

/-- Growth columns of one aggregated row `a`, where `prev` holds the rows
standing before `a` in the grouped frame, closest first.  `YoY_Growth` is
`pct_change` within the `groupby_cols + ['Quarter']` subgroup (same dims
and same quarter), `QoQ_Growth` within the `groupby_cols` subgroup (same
dims); each compares with the closest preceding row of its subgroup. -/
def mkGrowth (prev : List (AggRow δ)) (a : AggRow δ) : GRow δ :=
  { dims := a.dims, year := a.year, quarter := a.quarter, value := a.value
    yoy := pct ((prev.find? fun b =>
      decide (b.dims = a.dims ∧ b.quarter = a.quarter)).map AggRow.value) a.value
    qoq := pct ((prev.find? fun b =>
      decide (b.dims = a.dims)).map AggRow.value) a.value }

/-- Walk the aggregated rows in frame order, carrying the reversed prefix. -/
def growthRows (prev : List (AggRow δ)) : List (AggRow δ) → List (GRow δ)
  | [] => []
  | a :: rest => mkGrowth prev a :: growthRows (a :: prev) rest

/-- `calculate_growth_metrics(df, groupby_cols, value_col)` (src/app.py):
group by `(groupby_cols, Year, Quarter)` summing the value column, then add
`YoY_Growth` and `QoQ_Growth` via grouped `pct_change`. -/
def calculate_growth_metrics (rows : List (Event δ)) : List (GRow δ) :=
  growthRows [] (grouped rows)

/-- A Python string value, as Python compares it: the sequence of its code
points, ordered lexicographically. -/
abbrev Str : Type := List Char

/-- One row of the dashboard's raw table: the columns `Year`, `Month`,
`Category`, `Manufacturer`, `Registrations` (with `Quarter` and the English
month name derived from the calendar date when the table is built). -/
structure RawRow where
  year : Int
  month : Nat
  category : Str
  manufacturer : Str
  registrations : ℚ
deriving DecidableEq

/-- `f"Q{(date.month-1)//3 + 1}"` (the stored `Quarter` column, as a number). -/
def quarterOf (month : Nat) : Nat := (month - 1) / 3 + 1

/-- `date.strftime('%B')`: the English month name stored in the `Month`
column. -/
def monthName : Nat → Str
  | 1 => "January".data
  | 2 => "February".data
  | 3 => "March".data
  | 4 => "April".data
  | 5 => "May".data
  | 6 => "June".data
  | 7 => "July".data
  | 8 => "August".data
  | 9 => "September".data
  | 10 => "October".data
  | 11 => "November".data
  | 12 => "December".data
  | _ => "".data

/-- The view of the raw table handed to
`calculate_growth_metrics(filtered_df, ['Category'])`. -/
def toCategoryEvents (rows : List RawRow) : List (Event Str) :=
  rows.map fun r => ⟨r.category, r.year, quarterOf r.month, r.registrations⟩

/-- Distinct values of a string column, ascending — the key order of a
pandas `groupby` over that column. -/
def distinctSorted (l : List Str) : List Str :=
  List.insertionSort (· ≤ ·) l.dedup

/-- Sum of `Registrations` over the rows whose column `f` holds `c`. -/
def colTotal (rows : List RawRow) (f : RawRow → Str) (c : Str) : ℚ :=
  ((rows.filter fun r => decide (f r = c)).map RawRow.registrations).sum

/-- `df.groupby('Category')['Registrations'].sum()` as a sorted association
list. -/
def categoryTotals (rows : List RawRow) : List (Str × ℚ) :=
  (distinctSorted (rows.map RawRow.category)).map fun c =>
    (c, colTotal rows RawRow.category c)

/-- `df.groupby('Manufacturer')['Registrations'].sum()` as a sorted
association list. -/
def manufacturerTotals (rows : List RawRow) : List (Str × ℚ) :=
  (distinctSorted (rows.map RawRow.manufacturer)).map fun m =>
    (m, colTotal rows RawRow.manufacturer m)

/-- `category_market_share` of `calculate_market_metrics` (src/utils.py):
for each category, `sum(count for category) / sum over all categories * 100`
as a float. -/
def category_market_share (rows : List RawRow) : List (Str × PFloat) :=
  (categoryTotals rows).map fun cv =>
    (cv.1, fdiv (cv.2 * 100) ((categoryTotals rows).map Prod.snd).sum)

/-- Comparison `Series.nlargest` sorts by: larger value first. -/
def valGE (a b : Str × ℚ) : Prop := b.2 ≤ a.2

instance : DecidableRel valGE := fun a b => by unfold valGE; infer_instance

instance : IsTotal (Str × ℚ) valGE where
  total a b := le_total b.2 a.2

instance : IsTrans (Str × ℚ) valGE where
  trans _ _ _ hab hbc := le_trans hbc hab

/-- `Series.nlargest(n)`: the first `n` entries of the series sorted by
value descending (stably, from the name-sorted series). -/
def nlargest (n : Nat) (l : List (Str × ℚ)) : List (Str × ℚ) :=
  (List.insertionSort valGE l).take n

/-- The top-5 manufacturer concentration ratio of `identify_trends`
(src/utils.py) and of the insight block of `main` (src/app.py):
`manufacturer_totals.nlargest(5).sum() / manufacturer_totals.sum() * 100`. -/
def concentration_ratio (rows : List RawRow) : PFloat :=
  fdiv (((nlargest 5 (manufacturerTotals rows)).map Prod.snd).sum * 100)
    ((manufacturerTotals rows).map Prod.snd).sum

/-- Calendar month numbers present in the table, ascending — the key order
of `df.groupby(df['Date'].dt.month)` (src/utils.py). -/
def monthsPresent (rows : List RawRow) : List Nat :=
  List.insertionSort (· ≤ ·) (rows.map RawRow.month).dedup

/-- Mean of `Registrations` over the rows of calendar month `m`. -/
def monthMean (rows : List RawRow) (m : Nat) : ℚ :=
  let l := (rows.filter fun r => decide (r.month = m)).map RawRow.registrations
  l.sum / (l.length : ℚ)

/-- First-maximum index of a series: `Series.idxmax()` keeps the earliest
index attaining the maximum. -/
def idxmaxQGo {κ : Type} (k : κ) (v : ℚ) : List (κ × ℚ) → κ
  | [] => k
  | kv :: rest => if v < kv.2 then idxmaxQGo kv.1 kv.2 rest else idxmaxQGo k v rest

/-- `Series.idxmax()`; `none` on an empty series (pandas raises there). -/
def idxmaxQ {κ : Type} : List (κ × ℚ) → Option κ
  | [] => none
  | kv :: rest => some (idxmaxQGo kv.1 kv.2 rest)

/-- First-minimum index of a series. -/
def idxminQGo {κ : Type} (k : κ) (v : ℚ) : List (κ × ℚ) → κ
  | [] => k
  | kv :: rest => if kv.2 < v then idxminQGo kv.1 kv.2 rest else idxminQGo k v rest

/-- `Series.idxmin()`; `none` on an empty series (pandas raises there). -/
def idxminQ {κ : Type} : List (κ × ℚ) → Option κ
  | [] => none
  | kv :: rest => some (idxminQGo kv.1 kv.2 rest)

/-- The month series `df.groupby(df['Date'].dt.month)['Registrations'].mean()`
of `identify_trends` (src/utils.py). -/
def monthMeanSeries (rows : List RawRow) : List (Nat × ℚ) :=
  (monthsPresent rows).map fun m => (m, monthMean rows m)

/-- `identify_trends`' peak month (src/utils.py line 98): `idxmax` of the
month-number mean series. -/
def identify_trends_peak (rows : List RawRow) : Option Nat :=
  idxmaxQ (monthMeanSeries rows)

/-- `identify_trends`' low month (src/utils.py line 99): `idxmin` of the
month-number mean series. -/
def identify_trends_low (rows : List RawRow) : Option Nat :=
  idxminQ (monthMeanSeries rows)

/-- Month names present in the table, in the alphabetical order
`groupby('Month')` sorts its string keys into. -/
def monthNamesPresent (rows : List RawRow) : List Str :=
  distinctSorted (rows.map fun r => monthName r.month)

/-- Mean of `Registrations` over the rows whose `Month` column holds `s`. -/
def monthNameMean (rows : List RawRow) (s : Str) : ℚ :=
  let l := (rows.filter fun r =>
    decide (monthName r.month = s)).map RawRow.registrations
  l.sum / (l.length : ℚ)

/-- The seasonality insight of `main` (src/app.py lines 359-361):
`filtered_df.groupby('Month')['Registrations'].mean().idxmax()`, grouping by
the English month-name strings. -/
def app_peak_month (rows : List RawRow) : Option Str :=
  idxmaxQ ((monthNamesPresent rows).map fun s => (s, monthNameMean rows s))

/-- One textual finding of the insight block, with the formatted data it
interpolates. -/
inductive Insight where
  | leadership (category : Str) (share : PFloat)
  | growthLeader (category : Str) (growth : PFloat)
  | concentration (share : PFloat)
  | seasonality (peakMonth : Str)
deriving DecidableEq

/-- `growth_by_category['Year'].max()` (meaningful only on a non-empty
frame). -/
def gMaxYear (g : List (GRow Str)) : Int :=
  WithBot.unbot' 0 (g.map GRow.year).maximum

/-- `latest_growth`: the growth rows of the most recent year present. -/
def latestRows (rows : List RawRow) : List (GRow Str) :=
  let g := calculate_growth_metrics (toCategoryEvents rows)
  g.filter fun r => decide (r.year = gMaxYear g)

/-- One step of `latest_growth['YoY_Growth'].idxmax()`: skip `NaN`, keep the
first row attaining the running maximum. -/
def yoyStep (best : Option (Str × PFloat)) (r : GRow Str) :
    Option (Str × PFloat) :=
  if r.yoy = .nan then best
  else
    match best with
    | none => some (r.dims, r.yoy)
    | some cv => if pfLt cv.2 r.yoy then some (r.dims, r.yoy) else some cv

/-- `latest_growth['YoY_Growth'].idxmax()` together with the maximal value:
`none` when every `YoY_Growth` is `NaN` (pandas raises `ValueError`). -/
def idxmaxYoY (l : List (GRow Str)) : Option (Str × PFloat) :=
  l.foldl yoyStep none

/-- The growth-leader step of the insight block (src/app.py lines 347-351):
skipped when the growth frame is empty; otherwise `idxmax` over the
latest-year `YoY_Growth`, which raises (`Except.error`) when every such
value is `NaN`. -/
def growthLeader (rows : List RawRow) : Except Unit (Option (Str × PFloat)) :=
  if (calculate_growth_metrics (toCategoryEvents rows)).isEmpty then .ok none
  else if (latestRows rows).isEmpty then .ok none
  else
    match idxmaxYoY (latestRows rows) with
    | none => .error ()
    | some cv => .ok (some cv)

/-- The dominant category's share
`total_by_category[dominant] / total_by_category.sum() * 100`. -/
def dominantShare (rows : List RawRow) (c : Str) : PFloat :=
  fdiv (colTotal rows RawRow.category c * 100) ((categoryTotals rows).map Prod.snd).sum

/-- The insight list built in the Insights tab of `main` (src/app.py lines
339-364), in the order the code appends the findings: market leadership,
growth leader (when produced), market concentration, seasonality.
`Except.error` models a pandas `ValueError` escaping the block (an `idxmax`
with nothing to rank), which aborts rendering with no findings shown. -/
def derive_insights (rows : List RawRow) : Except Unit (List Insight) :=
  match idxmaxQ (categoryTotals rows), growthLeader rows, app_peak_month rows with
  | some dc, .ok gl, some pm =>
    .ok (.leadership dc (dominantShare rows dc) ::
      ((match gl with
        | none => []
        | some cv => [.growthLeader cv.1 cv.2]) ++
        [.concentration (concentration_ratio rows), .seasonality pm]))
  | _, _, _ => .error ()

/-- The grouping key of an aggregated row. -/
def rowKey (a : AggRow δ) : δ × Int × Nat := (a.dims, a.year, a.quarter)

/-! ## Concrete tables used to exercise the definitions -/

/-- A category with quarters Q1-2021 and Q1-2023 present but no Q1-2022. -/
def exGap : List (Event Str) :=
  [⟨"2W".data, 2021, 1, 100⟩, ⟨"2W".data, 2023, 1, 110⟩]

/-- A category whose first quarter aggregates to zero. -/
def exZero : List (Event Str) :=
  [⟨"2W".data, 2021, 1, 0⟩, ⟨"2W".data, 2021, 2, 5⟩]

/-- A table with a year boundary (2021→2022, Q1) where the most recent year
(2023) holds only a quarter (Q2, from April) with no prior-year
counterpart. -/
def exIns : List RawRow :=
  [⟨2021, 1, "2W".data, "M".data, 100⟩,
   ⟨2022, 1, "2W".data, "M".data, 110⟩,
   ⟨2023, 4, "2W".data, "M".data, 121⟩]

/-- A table whose most recent year (2022) has a computable YoY growth. -/
def exInsOk : List RawRow :=
  [⟨2021, 1, "2W".data, "M".data, 100⟩,
   ⟨2022, 1, "2W".data, "M".data, 110⟩]

/-- January and February with equal average registrations. -/
def exTie : List RawRow :=
  [⟨2021, 1, "2W".data, "M".data, 100⟩,
   ⟨2021, 2, "2W".data, "M".data, 100⟩]

/-- The spec's concentration scenario: manufacturer totals
`A:100, B:80, C:60, D:40, E:20, F:10`. -/
def exConc : List RawRow :=
  [⟨2021, 1, "2W".data, "A".data, 100⟩,
   ⟨2021, 1, "2W".data, "B".data, 80⟩,
   ⟨2021, 1, "2W".data, "C".data, 60⟩,
   ⟨2021, 1, "2W".data, "D".data, 40⟩,
   ⟨2021, 1, "2W".data, "E".data, 20⟩,
   ⟨2021, 1, "2W".data, "F".data, 10⟩]

/-! ## Machinery: positions in the growth frame -/

theorem growthRows_length (prev l : List (AggRow δ)) :
    (growthRows prev l).length = l.length := by
  induction l generalizing prev with
  | nil => rfl
  | cons a rest ih => simp [growthRows, ih]

theorem growthRows_get (prev l : List (AggRow δ)) (i : Nat) (h : i < l.length)
    (h2 : i < (growthRows prev l).length) :
    (growthRows prev l).get ⟨i, h2⟩ =
      mkGrowth ((l.take i).reverse ++ prev) (l.get ⟨i, h⟩) := by
  induction l generalizing prev i with
  | nil => simp at h
  | cons a rest ih =>
    cases i with
    | zero => simp [growthRows, mkGrowth]
    | succ n =>
      have hn : n < rest.length := by simpa using h
      have hn2 : n < (growthRows (a :: prev) rest).length := by
        rw [growthRows_length]; exact hn
      simp only [growthRows, List.get_cons_succ]
      rw [ih (a :: prev) n hn hn2]
      simp [List.take_succ_cons, List.reverse_cons, List.append_assoc]

theorem find?_eq_get_of_first {α : Type} (p : α → Bool) (l : List α) (i : Nat)
    (hi : i < l.length) (hp : p (l.get ⟨i, hi⟩) = true)
    (hbefore : ∀ k (hk : k < l.length), k < i → p (l.get ⟨k, hk⟩) = false) :
    l.find? p = some (l.get ⟨i, hi⟩) := by
  induction l generalizing i with
  | nil => simp at hi
  | cons a t ih =>
    cases i with
    | zero =>
      have hpa : p a = true := hp
      simp [List.find?_cons, hpa]
    | succ n =>
      have ha : p a = false := hbefore 0 (Nat.zero_lt_succ _) (Nat.zero_lt_succ n)
      have hn : n < t.length := by simpa using hi
      simp only [List.find?_cons, ha, List.get_cons_succ]
      exact ih n hn (by simpa using hp)
        (fun k hk hkn => hbefore (k + 1) (by simpa using hk) (by omega))

theorem get_index_congr {α : Type} (l : List α) {i j : Nat} (hi : i < l.length)
    (hj : j < l.length) (h : i = j) : l.get ⟨i, hi⟩ = l.get ⟨j, hj⟩ := by
  subst h; rfl

theorem find?_reverse_eq_get_of_last {α : Type} (p : α → Bool) (l : List α)
    (j : Nat) (hj : j < l.length) (hp : p (l.get ⟨j, hj⟩) = true)
    (hafter : ∀ k (hk : k < l.length), j < k → p (l.get ⟨k, hk⟩) = false) :
    l.reverse.find? p = some (l.get ⟨j, hj⟩) := by
  have hi : l.length - 1 - j < l.reverse.length := by
    rw [List.length_reverse]; omega
  have hrev : ∀ (k : Nat) (hk : k < l.reverse.length),
      l.reverse.get ⟨k, hk⟩ = l.get ⟨l.length - 1 - k, by
        rw [List.length_reverse] at hk; omega⟩ := by
    intro k hk
    simp [List.get_eq_getElem, List.getElem_reverse]
  have h1 : p (l.reverse.get ⟨l.length - 1 - j, hi⟩) = true := by
    rw [hrev, get_index_congr l _ hj (by omega)]
    exact hp
  have h2 : ∀ k (hk : k < l.reverse.length), k < l.length - 1 - j →
      p (l.reverse.get ⟨k, hk⟩) = false := by
    intro k hk hkj
    rw [hrev]
    have hk2 : k < l.length := by rw [List.length_reverse] at hk; exact hk
    exact hafter (l.length - 1 - k) (by omega) (by omega)
  rw [find?_eq_get_of_first p l.reverse (l.length - 1 - j) hi h1 h2, hrev,
    get_index_congr l _ hj (by omega)]

theorem aggKeys_sorted (rows : List (Event δ)) :
    List.Sorted keyLE (aggKeys rows) :=
  List.sorted_insertionSort keyLE _

theorem aggKeys_nodup (rows : List (Event δ)) : (aggKeys rows).Nodup :=
  (List.perm_insertionSort keyLE _).nodup_iff.mpr (List.nodup_dedup _)

theorem grouped_length (rows : List (Event δ)) :
    (grouped rows).length = (aggKeys rows).length := by
  simp [grouped]

theorem grouped_key_get (rows : List (Event δ)) (i : Nat)
    (h : i < (grouped rows).length) (h2 : i < (aggKeys rows).length) :
    rowKey ((grouped rows).get ⟨i, h⟩) = (aggKeys rows).get ⟨i, h2⟩ := by
  simp [grouped, rowKey, List.get_eq_getElem, List.getElem_map]

theorem grouped_key_strict (rows : List (Event δ)) (i j : Nat)
    (hi : i < (grouped rows).length) (hj : j < (grouped rows).length)
    (hij : i < j) :
    keyLE (rowKey ((grouped rows).get ⟨i, hi⟩))
        (rowKey ((grouped rows).get ⟨j, hj⟩)) ∧
      rowKey ((grouped rows).get ⟨i, hi⟩)
        ≠ rowKey ((grouped rows).get ⟨j, hj⟩) := by
  have hi2 : i < (aggKeys rows).length := by rwa [grouped_length] at hi
  have hj2 : j < (aggKeys rows).length := by rwa [grouped_length] at hj
  rw [grouped_key_get rows i hi hi2, grouped_key_get rows j hj hj2]
  constructor
  · exact List.pairwise_iff_get.mp (aggKeys_sorted rows) ⟨i, hi2⟩ ⟨j, hj2⟩ hij
  · exact List.pairwise_iff_get.mp (aggKeys_nodup rows) ⟨i, hi2⟩ ⟨j, hj2⟩ hij

theorem keyLE_strict_parts {a b : δ × Int × Nat} (h : keyLE a b) (hne : a ≠ b) :
    a.1 < b.1 ∨ (a.1 = b.1 ∧
      (a.2.1 < b.2.1 ∨ (a.2.1 = b.2.1 ∧ a.2.2 < b.2.2))) := by
  rcases h with h | ⟨e1, h⟩
  · exact Or.inl h
  · refine Or.inr ⟨e1, ?_⟩
    rcases h with h2 | ⟨e2, h3⟩
    · exact Or.inl h2
    · refine Or.inr ⟨e2, lt_of_le_of_ne h3 fun e3 => hne ?_⟩
      obtain ⟨a1, a2, a3⟩ := a
      obtain ⟨b1, b2, b3⟩ := b
      simp only at e1 e2 e3
      simp [e1, e2, e3]

theorem calc_growth_length (rows : List (Event δ)) :
    (calculate_growth_metrics rows).length = (grouped rows).length :=
  growthRows_length [] (grouped rows)

theorem calc_growth_get (rows : List (Event δ)) (i : Nat)
    (h : i < (calculate_growth_metrics rows).length)
    (hg : i < (grouped rows).length) :
    (calculate_growth_metrics rows).get ⟨i, h⟩ =
      mkGrowth ((grouped rows).take i).reverse ((grouped rows).get ⟨i, hg⟩) := by
  unfold calculate_growth_metrics
  rw [growthRows_get [] (grouped rows) i hg h]
  simp

/-- The fields of an output row are those of the underlying aggregated
row. -/
theorem calc_growth_fields (rows : List (Event δ)) (i : Nat)
    (h : i < (calculate_growth_metrics rows).length)
    (hg : i < (grouped rows).length) :
    ((calculate_growth_metrics rows).get ⟨i, h⟩).dims
        = ((grouped rows).get ⟨i, hg⟩).dims ∧
      ((calculate_growth_metrics rows).get ⟨i, h⟩).year
        = ((grouped rows).get ⟨i, hg⟩).year ∧
      ((calculate_growth_metrics rows).get ⟨i, h⟩).quarter
        = ((grouped rows).get ⟨i, hg⟩).quarter ∧
      ((calculate_growth_metrics rows).get ⟨i, h⟩).value
        = ((grouped rows).get ⟨i, hg⟩).value := by
  rw [calc_growth_get rows i h hg]
  exact ⟨rfl, rfl, rfl, rfl⟩

theorem take_reverse_find?_none (g : List (AggRow δ)) (i : Nat)
    (p : AggRow δ → Bool)
    (hnone : ∀ k (hk : k < g.length), k < i → p (g.get ⟨k, hk⟩) = false) :
    ((g.take i).reverse.find? p) = none := by
  rw [List.find?_eq_none]
  intro x hx
  rw [List.mem_reverse] at hx
  obtain ⟨⟨k, hk⟩, hget⟩ := List.mem_iff_get.mp hx
  have hkt := hk
  rw [List.length_take] at hkt
  have hk1 : k < i := by omega
  have hk2 : k < g.length := by omega
  have hgt : (g.take i).get ⟨k, hk⟩ = g.get ⟨k, hk2⟩ := by
    simp [List.get_eq_getElem, List.getElem_take]
  rw [hgt] at hget
  rw [← hget]
  have hh := hnone k hk2 hk1
  simp only [List.get_eq_getElem] at hh
  simp [hh]

theorem take_reverse_find?_last (g : List (AggRow δ)) (i j : Nat)
    (hgi : i ≤ g.length) (hgj : j < g.length) (hji : j < i)
    (p : AggRow δ → Bool) (hpj : p (g.get ⟨j, hgj⟩) = true)
    (hmid : ∀ k (hk : k < g.length), j < k → k < i → p (g.get ⟨k, hk⟩) = false) :
    ((g.take i).reverse.find? p) = some (g.get ⟨j, hgj⟩) := by
  have hlen : (g.take i).length = i := by rw [List.length_take]; omega
  have hjt : j < (g.take i).length := by omega
  have hgetj : (g.take i).get ⟨j, hjt⟩ = g.get ⟨j, hgj⟩ := by
    simp [List.get_eq_getElem, List.getElem_take]
  rw [← hgetj]
  refine find?_reverse_eq_get_of_last p (g.take i) j hjt (by rw [hgetj]; exact hpj) ?_
  intro k hk hjk
  have hkt := hk
  rw [hlen] at hkt
  have hk2 : k < g.length := by omega
  have hgt : (g.take i).get ⟨k, hk⟩ = g.get ⟨k, hk2⟩ := by
    simp [List.get_eq_getElem, List.getElem_take]
  rw [hgt]
  exact hmid k hk2 hjk hkt

/-! ## C2: QoQ growth -/

/-- **C2** (confirmed).  In the output of `calculate_growth_metrics`, rows of
one dimension value appear ordered by `(Year, Quarter)` ascending;
`QoQ_Growth` is absent (`NaN`) on the first record of each dimension value,
and on every later record it is the percent change against the immediately
preceding record of the same dimension value in the sorted frame. -/
theorem qoq_growth_spec (rows : List (Event δ)) (out : List (GRow δ))
    (hout : out = calculate_growth_metrics rows) :
    (∀ i j (hi : i < out.length) (hj : j < out.length), i < j →
      (out.get ⟨i, hi⟩).dims = (out.get ⟨j, hj⟩).dims →
      ((out.get ⟨i, hi⟩).year < (out.get ⟨j, hj⟩).year ∨
        ((out.get ⟨i, hi⟩).year = (out.get ⟨j, hj⟩).year ∧
          (out.get ⟨i, hi⟩).quarter < (out.get ⟨j, hj⟩).quarter))) ∧
    (∀ i (hi : i < out.length),
      (∀ j (hj : j < out.length), j < i →
        (out.get ⟨j, hj⟩).dims ≠ (out.get ⟨i, hi⟩).dims) →
      (out.get ⟨i, hi⟩).qoq = PFloat.nan) ∧
    (∀ i j (hi : i < out.length) (hj : j < out.length), j < i →
      (out.get ⟨j, hj⟩).dims = (out.get ⟨i, hi⟩).dims →
      (∀ k (hk : k < out.length), j < k → k < i →
        (out.get ⟨k, hk⟩).dims ≠ (out.get ⟨i, hi⟩).dims) →
      (out.get ⟨j, hj⟩).value ≠ 0 →
      (out.get ⟨i, hi⟩).qoq = PFloat.val
        (((out.get ⟨i, hi⟩).value - (out.get ⟨j, hj⟩).value)
          / (out.get ⟨j, hj⟩).value * 100)) := by
  subst hout
  refine ⟨?_, ?_, ?_⟩
  · intro i j hi hj hij hdims
    have hgi : i < (grouped rows).length := by rwa [calc_growth_length] at hi
    have hgj : j < (grouped rows).length := by rwa [calc_growth_length] at hj
    obtain ⟨d1i, d2i, d3i, _⟩ := calc_growth_fields rows i hi hgi
    obtain ⟨d1j, d2j, d3j, _⟩ := calc_growth_fields rows j hj hgj
    rw [d1i, d1j] at hdims
    rw [d2i, d2j, d3i, d3j]
    obtain ⟨hle, hne⟩ := grouped_key_strict rows i j hgi hgj hij
    rcases keyLE_strict_parts hle hne with h | ⟨e1, h⟩
    · exact absurd hdims (ne_of_lt h)
    · exact h
  · intro i hi hfirst
    have hgi : i < (grouped rows).length := by rwa [calc_growth_length] at hi
    have hd := (calc_growth_fields rows i hi hgi).1
    have hnone : (((grouped rows).take i).reverse.find? fun b =>
        decide (b.dims = ((grouped rows).get ⟨i, hgi⟩).dims)) = none := by
      apply take_reverse_find?_none
      intro k hk hki
      have hk1 : k < (calculate_growth_metrics rows).length := by
        rwa [calc_growth_length]
      have hdk := (calc_growth_fields rows k hk1 hk).1
      have hne := hfirst k hk1 hki
      rw [hdk, hd] at hne
      simpa using hne
    rw [calc_growth_get rows i hi hgi]
    show pct
      (Option.map AggRow.value (((grouped rows).take i).reverse.find? fun b =>
        decide (b.dims = ((grouped rows).get ⟨i, hgi⟩).dims)))
      ((grouped rows).get ⟨i, hgi⟩).value = PFloat.nan
    rw [hnone]
    rfl
  · intro i j hi hj hji hdims hmid hval
    have hgi : i < (grouped rows).length := by rwa [calc_growth_length] at hi
    have hgj : j < (grouped rows).length := by rwa [calc_growth_length] at hj
    obtain ⟨d1i, _, _, d4i⟩ := calc_growth_fields rows i hi hgi
    obtain ⟨d1j, _, _, d4j⟩ := calc_growth_fields rows j hj hgj
    have hfind : (((grouped rows).take i).reverse.find? fun b =>
        decide (b.dims = ((grouped rows).get ⟨i, hgi⟩).dims))
          = some ((grouped rows).get ⟨j, hgj⟩) := by
      apply take_reverse_find?_last (grouped rows) i j (le_of_lt hgi) hgj hji
      · rw [d1i, d1j] at hdims
        simpa using hdims
      · intro k hk hjk hki
        have hk1 : k < (calculate_growth_metrics rows).length := by
          rwa [calc_growth_length]
        have hdk := (calc_growth_fields rows k hk1 hk).1
        have hne := hmid k hk1 hjk hki
        rw [hdk, d1i] at hne
        simpa using hne
    have hvg : ((grouped rows).get ⟨j, hgj⟩).value ≠ 0 := by
      rw [← d4j]; exact hval
    rw [calc_growth_get rows i hi hgi, d4j]
    show pct
      (Option.map AggRow.value (((grouped rows).take i).reverse.find? fun b =>
        decide (b.dims = ((grouped rows).get ⟨i, hgi⟩).dims)))
      ((grouped rows).get ⟨i, hgi⟩).value
      = PFloat.val ((((grouped rows).get ⟨i, hgi⟩).value
          - ((grouped rows).get ⟨j, hgj⟩).value)
        / ((grouped rows).get ⟨j, hgj⟩).value * 100)
    rw [hfind]
    show pct (some ((grouped rows).get ⟨j, hgj⟩).value)
        ((grouped rows).get ⟨i, hgi⟩).value
      = PFloat.val ((((grouped rows).get ⟨i, hgi⟩).value
          - ((grouped rows).get ⟨j, hgj⟩).value)
        / ((grouped rows).get ⟨j, hgj⟩).value * 100)
    simp only [pct]
    rw [if_neg hvg]

/-! ## C1: YoY growth -/

/-- **C1** (amended).  `YoY_Growth` of a record is the percent change against
the record with equal dimension value, equal quarter, and the greatest
smaller year present in the table (not necessarily exactly `year - 1`); it
is absent precisely when no earlier year with that quarter and dimension
value is present at all. -/
theorem yoy_growth_amended (rows : List (Event δ)) (out : List (GRow δ))
    (hout : out = calculate_growth_metrics rows) :
    (∀ i j (hi : i < out.length) (hj : j < out.length), j < i →
      (out.get ⟨j, hj⟩).dims = (out.get ⟨i, hi⟩).dims →
      (out.get ⟨j, hj⟩).quarter = (out.get ⟨i, hi⟩).quarter →
      (out.get ⟨j, hj⟩).year < (out.get ⟨i, hi⟩).year) ∧
    (∀ i (hi : i < out.length),
      (∀ j (hj : j < out.length), j < i →
        ¬((out.get ⟨j, hj⟩).dims = (out.get ⟨i, hi⟩).dims ∧
          (out.get ⟨j, hj⟩).quarter = (out.get ⟨i, hi⟩).quarter)) →
      (out.get ⟨i, hi⟩).yoy = PFloat.nan) ∧
    (∀ i j (hi : i < out.length) (hj : j < out.length), j < i →
      (out.get ⟨j, hj⟩).dims = (out.get ⟨i, hi⟩).dims →
      (out.get ⟨j, hj⟩).quarter = (out.get ⟨i, hi⟩).quarter →
      (∀ k (hk : k < out.length), j < k → k < i →
        ¬((out.get ⟨k, hk⟩).dims = (out.get ⟨i, hi⟩).dims ∧
          (out.get ⟨k, hk⟩).quarter = (out.get ⟨i, hi⟩).quarter)) →
      (out.get ⟨j, hj⟩).value ≠ 0 →
      (out.get ⟨i, hi⟩).yoy = PFloat.val
        (((out.get ⟨i, hi⟩).value - (out.get ⟨j, hj⟩).value)
          / (out.get ⟨j, hj⟩).value * 100)) := by
  subst hout
  refine ⟨?_, ?_, ?_⟩
  · intro i j hi hj hji hdims hq
    have hgi : i < (grouped rows).length := by rwa [calc_growth_length] at hi
    have hgj : j < (grouped rows).length := by rwa [calc_growth_length] at hj
    obtain ⟨d1i, d2i, d3i, _⟩ := calc_growth_fields rows i hi hgi
    obtain ⟨d1j, d2j, d3j, _⟩ := calc_growth_fields rows j hj hgj
    rw [d1i, d1j] at hdims
    rw [d3i, d3j] at hq
    rw [d2i, d2j]
    obtain ⟨hle, hne⟩ := grouped_key_strict rows j i hgj hgi hji
    rcases keyLE_strict_parts hle hne with h | ⟨e1, h⟩
    · exact absurd hdims (ne_of_lt h)
    · rcases h with h2 | ⟨e2, h3⟩
      · exact h2
      · exact absurd hq (ne_of_lt h3)
  · intro i hi hfirst
    have hgi : i < (grouped rows).length := by rwa [calc_growth_length] at hi
    have hd := (calc_growth_fields rows i hi hgi).1
    have hq := (calc_growth_fields rows i hi hgi).2.2.1
    have hnone : (((grouped rows).take i).reverse.find? fun b =>
        decide (b.dims = ((grouped rows).get ⟨i, hgi⟩).dims ∧
          b.quarter = ((grouped rows).get ⟨i, hgi⟩).quarter)) = none := by
      apply take_reverse_find?_none
      intro k hk hki
      have hk1 : k < (calculate_growth_metrics rows).length := by
        rwa [calc_growth_length]
      obtain ⟨hdk, _, hqk, _⟩ := calc_growth_fields rows k hk1 hk
      have hne := hfirst k hk1 hki
      rw [hdk, hd, hqk, hq] at hne
      simpa using hne
    rw [calc_growth_get rows i hi hgi]
    show pct
      (Option.map AggRow.value (((grouped rows).take i).reverse.find? fun b =>
        decide (b.dims = ((grouped rows).get ⟨i, hgi⟩).dims ∧
          b.quarter = ((grouped rows).get ⟨i, hgi⟩).quarter)))
      ((grouped rows).get ⟨i, hgi⟩).value = PFloat.nan
    rw [hnone]
    rfl
  · intro i j hi hj hji hdims hq hmid hval
    have hgi : i < (grouped rows).length := by rwa [calc_growth_length] at hi
    have hgj : j < (grouped rows).length := by rwa [calc_growth_length] at hj
    obtain ⟨d1i, _, d3i, d4i⟩ := calc_growth_fields rows i hi hgi
    obtain ⟨d1j, _, d3j, d4j⟩ := calc_growth_fields rows j hj hgj
    have hfind : (((grouped rows).take i).reverse.find? fun b =>
        decide (b.dims = ((grouped rows).get ⟨i, hgi⟩).dims ∧
          b.quarter = ((grouped rows).get ⟨i, hgi⟩).quarter))
          = some ((grouped rows).get ⟨j, hgj⟩) := by
      apply take_reverse_find?_last (grouped rows) i j (le_of_lt hgi) hgj hji
      · rw [d1i, d1j] at hdims
        rw [d3i, d3j] at hq
        simpa using And.intro hdims hq
      · intro k hk hjk hki
        have hk1 : k < (calculate_growth_metrics rows).length := by
          rwa [calc_growth_length]
        obtain ⟨hdk, _, hqk, _⟩ := calc_growth_fields rows k hk1 hk
        have hne := hmid k hk1 hjk hki
        rw [hdk, d1i, hqk, d3i] at hne
        simpa using hne
    have hvg : ((grouped rows).get ⟨j, hgj⟩).value ≠ 0 := by
      rw [← d4j]; exact hval
    rw [calc_growth_get rows i hi hgi, d4j]
    show pct
      (Option.map AggRow.value (((grouped rows).take i).reverse.find? fun b =>
        decide (b.dims = ((grouped rows).get ⟨i, hgi⟩).dims ∧
          b.quarter = ((grouped rows).get ⟨i, hgi⟩).quarter)))
      ((grouped rows).get ⟨i, hgi⟩).value
      = PFloat.val ((((grouped rows).get ⟨i, hgi⟩).value
          - ((grouped rows).get ⟨j, hgj⟩).value)
        / ((grouped rows).get ⟨j, hgj⟩).value * 100)
    rw [hfind]
    show pct (some ((grouped rows).get ⟨j, hgj⟩).value)
        ((grouped rows).get ⟨i, hgi⟩).value
      = PFloat.val ((((grouped rows).get ⟨i, hgi⟩).value
          - ((grouped rows).get ⟨j, hgj⟩).value)
        / ((grouped rows).get ⟨j, hgj⟩).value * 100)
    simp only [pct]
    rw [if_neg hvg]

/-! ## C3: zero denominator -/

/-- **C3** (amended).  When the previous period's aggregated value is zero,
no error is raised and no finite percentage is produced: `QoQ_Growth` is
`+inf` when the current value is positive, `-inf` when negative, and `NaN`
(absent) only when the current value is zero as well.  The `±inf` outcomes
are not absent. -/
theorem zero_denominator_amended (rows : List (Event δ)) (out : List (GRow δ))
    (hout : out = calculate_growth_metrics rows) :
    ∀ i j (hi : i < out.length) (hj : j < out.length), j < i →
      (out.get ⟨j, hj⟩).dims = (out.get ⟨i, hi⟩).dims →
      (∀ k (hk : k < out.length), j < k → k < i →
        (out.get ⟨k, hk⟩).dims ≠ (out.get ⟨i, hi⟩).dims) →
      (out.get ⟨j, hj⟩).value = 0 →
      (out.get ⟨i, hi⟩).qoq =
        (if 0 < (out.get ⟨i, hi⟩).value then PFloat.inf
          else if (out.get ⟨i, hi⟩).value < 0 then PFloat.neginf
          else PFloat.nan) := by
  subst hout
  intro i j hi hj hji hdims hmid hval
  have hgi : i < (grouped rows).length := by rwa [calc_growth_length] at hi
  have hgj : j < (grouped rows).length := by rwa [calc_growth_length] at hj
  obtain ⟨d1i, _, _, d4i⟩ := calc_growth_fields rows i hi hgi
  obtain ⟨d1j, _, _, d4j⟩ := calc_growth_fields rows j hj hgj
  have hfind : (((grouped rows).take i).reverse.find? fun b =>
      decide (b.dims = ((grouped rows).get ⟨i, hgi⟩).dims))
        = some ((grouped rows).get ⟨j, hgj⟩) := by
    apply take_reverse_find?_last (grouped rows) i j (le_of_lt hgi) hgj hji
    · rw [d1i, d1j] at hdims
      simpa using hdims
    · intro k hk hjk hki
      have hk1 : k < (calculate_growth_metrics rows).length := by
        rwa [calc_growth_length]
      have hdk := (calc_growth_fields rows k hk1 hk).1
      have hne := hmid k hk1 hjk hki
      rw [hdk, d1i] at hne
      simpa using hne
  have hvg : ((grouped rows).get ⟨j, hgj⟩).value = 0 := by
    rw [← d4j]; exact hval
  rw [calc_growth_get rows i hi hgi]
  show pct
    (Option.map AggRow.value (((grouped rows).take i).reverse.find? fun b =>
      decide (b.dims = ((grouped rows).get ⟨i, hgi⟩).dims)))
    ((grouped rows).get ⟨i, hgi⟩).value
    = (if 0 < ((grouped rows).get ⟨i, hgi⟩).value then PFloat.inf
        else if ((grouped rows).get ⟨i, hgi⟩).value < 0 then PFloat.neginf
        else PFloat.nan)
  rw [hfind]
  show pct (some ((grouped rows).get ⟨j, hgj⟩).value)
      ((grouped rows).get ⟨i, hgi⟩).value
    = (if 0 < ((grouped rows).get ⟨i, hgi⟩).value then PFloat.inf
        else if ((grouped rows).get ⟨i, hgi⟩).value < 0 then PFloat.neginf
        else PFloat.nan)
  simp only [pct]
  rw [if_pos hvg]

/-! ## C9: empty input -/

/-- **C9** (confirmed).  On the empty table, `calculate_growth_metrics`
returns the empty frame (and, being a total function here, raises no
error), whatever the dimension columns are. -/
theorem empty_input_spec : calculate_growth_metrics ([] : List (Event δ)) = [] :=
  rfl

/-! ## C10: the grouped aggregation preserves the value total -/

theorem sum_filter_split {α : Type} (p : α → Bool) (g : α → ℚ) (l : List α) :
    ((l.filter p).map g).sum + ((l.filter fun a => !p a).map g).sum
      = (l.map g).sum := by
  induction l with
  | nil => simp
  | cons a t ih =>
    cases h : p a <;> simp [List.filter_cons, h, ← ih] <;> ring

theorem sum_over_keys {α κ : Type} [DecidableEq κ] (f : α → κ) (g : α → ℚ) :
    ∀ (keys : List κ) (l : List α), keys.Nodup → (∀ a ∈ l, f a ∈ keys) →
      (keys.map fun k => ((l.filter fun a => decide (f a = k)).map g).sum).sum
        = (l.map g).sum := by
  intro keys
  induction keys with
  | nil =>
    intro l _ hcov
    cases l with
    | nil => simp
    | cons a t => exact absurd (hcov a (List.mem_cons_self a t)) (by simp)
  | cons k ks ih =>
    intro l hnd hcov
    have hknotin : k ∉ ks := (List.nodup_cons.mp hnd).1
    have hndks : ks.Nodup := (List.nodup_cons.mp hnd).2
    have hfilters : ∀ k2 ∈ ks,
        (l.filter fun a => decide (f a = k2))
          = ((l.filter fun a => !decide (f a = k)).filter
              fun a => decide (f a = k2)) := by
      intro k2 hk2
      rw [List.filter_filter]
      apply List.filter_congr
      intro a _
      by_cases hfa : f a = k2
      · have hk2k : ¬(k2 = k) := fun h => hknotin (h ▸ hk2)
        simp [hfa, hk2k]
      · simp [hfa]
    have hcov2 : ∀ a ∈ (l.filter fun a => !decide (f a = k)), f a ∈ ks := by
      intro a ha
      rw [List.mem_filter] at ha
      have := hcov a ha.1
      rcases List.mem_cons.mp this with h | h
      · exact absurd h (by simpa using ha.2)
      · exact h
    have hmap : (ks.map fun k2 =>
        ((l.filter fun a => decide (f a = k2)).map g).sum).sum
          = (ks.map fun k2 =>
            (((l.filter fun a => !decide (f a = k)).filter
              fun a => decide (f a = k2)).map g).sum).sum := by
      apply congrArg
      apply List.map_congr_left
      intro k2 hk2
      rw [hfilters k2 hk2]
    rw [List.map_cons, List.sum_cons, hmap,
      ih (l.filter fun a => !decide (f a = k)) hndks hcov2,
      sum_filter_split (fun a => decide (f a = k)) g l]

theorem growthRows_map_value (prev l : List (AggRow δ)) :
    (growthRows prev l).map GRow.value = l.map AggRow.value := by
  induction l generalizing prev with
  | nil => rfl
  | cons a rest ih => simp [growthRows, mkGrowth, ih]

/-- **C10** (confirmed).  The grouped aggregation inside
`calculate_growth_metrics` preserves the total of the value column: no row
is dropped, none double-counted. -/
theorem aggregation_preserves_total (rows : List (Event δ)) :
    ((calculate_growth_metrics rows).map GRow.value).sum
      = (rows.map Event.value).sum := by
  unfold calculate_growth_metrics
  rw [growthRows_map_value]
  have h1 : (grouped rows).map AggRow.value
      = (aggKeys rows).map (groupTotal rows) := by
    unfold grouped
    rw [List.map_map]
    rfl
  rw [h1]
  have hperm : List.Perm ((aggKeys rows).map (groupTotal rows))
      (((rows.map Event.key).dedup).map (groupTotal rows)) :=
    (List.perm_insertionSort keyLE _).map _
  rw [hperm.sum_eq]
  have hcov : ∀ e ∈ rows, e.key ∈ (rows.map Event.key).dedup := by
    intro e he
    rw [List.mem_dedup]
    exact List.mem_map_of_mem Event.key he
  exact sum_over_keys Event.key Event.value ((rows.map Event.key).dedup)
    rows (List.nodup_dedup _) hcov

/-! ## Evaluating the growth pipeline on the concrete tables -/

theorem grouped_exGap : grouped exGap
    = [⟨"2W".data, 2021, 1, 100⟩, ⟨"2W".data, 2023, 1, 110⟩] := by
  rw [grouped,
    show aggKeys exGap = [("2W".data, 2021, 1), ("2W".data, 2023, 1)] from by decide]
  rw [List.map_cons, List.map_cons, List.map_nil]
  rw [show groupTotal exGap ("2W".data, 2021, 1) = 100 from by
    rw [groupTotal]
    rw [show List.filter _ exGap
      = [(⟨"2W".data, 2021, 1, 100⟩ : Event Str)] from by decide]
    norm_num]
  rw [show groupTotal exGap ("2W".data, 2023, 1) = 110 from by
    rw [groupTotal]
    rw [show List.filter _ exGap
      = [(⟨"2W".data, 2023, 1, 110⟩ : Event Str)] from by decide]
    norm_num]

theorem calc_exGap : calculate_growth_metrics exGap
    = [⟨"2W".data, 2021, 1, 100, PFloat.nan, PFloat.nan⟩,
       ⟨"2W".data, 2023, 1, 110, PFloat.val 10, PFloat.val 10⟩] := by
  rw [calculate_growth_metrics, grouped_exGap]
  simp only [growthRows, mkGrowth]
  norm_num [List.find?, pct]

theorem grouped_exZero : grouped exZero
    = [⟨"2W".data, 2021, 1, 0⟩, ⟨"2W".data, 2021, 2, 5⟩] := by
  rw [grouped,
    show aggKeys exZero = [("2W".data, 2021, 1), ("2W".data, 2021, 2)] from by decide]
  rw [List.map_cons, List.map_cons, List.map_nil]
  rw [show groupTotal exZero ("2W".data, 2021, 1) = 0 from by
    rw [groupTotal]
    rw [show List.filter _ exZero
      = [(⟨"2W".data, 2021, 1, 0⟩ : Event Str)] from by decide]
    norm_num]
  rw [show groupTotal exZero ("2W".data, 2021, 2) = 5 from by
    rw [groupTotal]
    rw [show List.filter _ exZero
      = [(⟨"2W".data, 2021, 2, 5⟩ : Event Str)] from by decide]
    norm_num]

theorem calc_exZero : calculate_growth_metrics exZero
    = [⟨"2W".data, 2021, 1, 0, PFloat.nan, PFloat.nan⟩,
       ⟨"2W".data, 2021, 2, 5, PFloat.nan, PFloat.inf⟩] := by
  rw [calculate_growth_metrics, grouped_exZero]
  simp only [growthRows, mkGrowth]
  norm_num [List.find?, pct]

/-- **C1** (counterexample).  On `exGap` the table holds `(2W, 2021, Q1)`
and `(2W, 2023, Q1)` and nothing in 2022, yet the 2023-Q1 output row
carries `YoY_Growth = 10`, not an absent value: `pct_change` compared it
with 2021, two years back, where the claim requires a year exactly one
less and absence otherwise. -/
theorem yoy_year_minus_one_cex :
    calculate_growth_metrics exGap
      = [⟨"2W".data, 2021, 1, 100, PFloat.nan, PFloat.nan⟩,
         ⟨"2W".data, 2023, 1, 110, PFloat.val 10, PFloat.val 10⟩] ∧
    exGap.all (fun e => decide (e.year ≠ 2022)) = true ∧
    PFloat.val 10 ≠ PFloat.nan :=
  ⟨calc_exGap, by decide, by decide⟩

/-- Witness for `yoy_growth_amended` at `exGap`, rows 0 and 1. -/
theorem yoy_growth_amended_witness :
    ((calculate_growth_metrics exGap).get ⟨1, by decide⟩).yoy = PFloat.val 10 := by
  have hv0 : ((calculate_growth_metrics exGap).get ⟨0, by decide⟩).value = 100 := by
    rw [List.get_of_eq calc_exGap]; rfl
  have hv1 : ((calculate_growth_metrics exGap).get ⟨1, by decide⟩).value = 110 := by
    rw [List.get_of_eq calc_exGap]; rfl
  have happ := (yoy_growth_amended exGap (calculate_growth_metrics exGap) rfl).2.2
    1 0 (by decide) (by decide) (by decide) (by decide) (by decide)
    (by decide) (by rw [hv0]; norm_num)
  rw [happ, hv0, hv1]
  norm_num

/-- Witness for `qoq_growth_spec` at `exGap`, rows 0 and 1. -/
theorem qoq_growth_spec_witness :
    ((calculate_growth_metrics exGap).get ⟨1, by decide⟩).qoq = PFloat.val 10 := by
  have hv0 : ((calculate_growth_metrics exGap).get ⟨0, by decide⟩).value = 100 := by
    rw [List.get_of_eq calc_exGap]; rfl
  have hv1 : ((calculate_growth_metrics exGap).get ⟨1, by decide⟩).value = 110 := by
    rw [List.get_of_eq calc_exGap]; rfl
  have happ := (qoq_growth_spec exGap (calculate_growth_metrics exGap) rfl).2.2
    1 0 (by decide) (by decide) (by decide) (by decide)
    (by decide) (by rw [hv0]; norm_num)
  rw [happ, hv0, hv1]
  norm_num

/-- **C3** (counterexample).  On `exZero` the Q1-2021 aggregate is zero and
the Q2-2021 aggregate is 5; the Q2 output row carries `QoQ_Growth = +inf` —
a value that is present (not `NaN`, so it survives `dropna`) — where the
claim requires an absent growth value. -/
theorem zero_denominator_cex :
    calculate_growth_metrics exZero
      = [⟨"2W".data, 2021, 1, 0, PFloat.nan, PFloat.nan⟩,
         ⟨"2W".data, 2021, 2, 5, PFloat.nan, PFloat.inf⟩] ∧
    PFloat.inf ≠ PFloat.nan :=
  ⟨calc_exZero, by decide⟩

/-- Witness for `zero_denominator_amended` at `exZero`, rows 0 and 1. -/
theorem zero_denominator_amended_witness :
    ((calculate_growth_metrics exZero).get ⟨1, by decide⟩).qoq = PFloat.inf := by
  have hv0 : ((calculate_growth_metrics exZero).get ⟨0, by decide⟩).value = 0 := by
    rw [List.get_of_eq calc_exZero]; rfl
  have hv1 : ((calculate_growth_metrics exZero).get ⟨1, by decide⟩).value = 5 := by
    rw [List.get_of_eq calc_exZero]; rfl
  have happ := zero_denominator_amended exZero (calculate_growth_metrics exZero) rfl
    1 0 (by decide) (by decide) (by decide) (by decide) (by decide) hv0
  rw [happ, hv1]
  norm_num

/-! ## C4: market shares sum to 100 -/

theorem sum_map_mul_const (l : List ℚ) (c : ℚ) :
    (l.map fun x => x * c).sum = l.sum * c := by
  induction l with
  | nil => simp
  | cons a t ih => simp [ih]; ring

/-- The total of a column-grouped sum series is the grand total of
`Registrations`: the groups partition the rows. -/
theorem colTotals_sum (rows : List RawRow) (f : RawRow → Str) :
    (((distinctSorted (rows.map f)).map fun c => (c, colTotal rows f c)).map
      Prod.snd).sum = (rows.map RawRow.registrations).sum := by
  rw [List.map_map]
  have hcomp : (Prod.snd ∘ fun c => (c, colTotal rows f c)) = colTotal rows f :=
    rfl
  rw [hcomp]
  have hperm : List.Perm ((distinctSorted (rows.map f)).map (colTotal rows f))
      (((rows.map f).dedup).map (colTotal rows f)) :=
    (List.perm_insertionSort _ _).map _
  rw [hperm.sum_eq]
  have hcov : ∀ r ∈ rows, f r ∈ (rows.map f).dedup := by
    intro r hr
    rw [List.mem_dedup]
    exact List.mem_map_of_mem f hr
  exact sum_over_keys f RawRow.registrations ((rows.map f).dedup) rows
    (List.nodup_dedup _) hcov

/-- **C4** (confirmed).  Whenever total registrations are positive, the
category market shares of `calculate_market_metrics` are all finite floats
and sum to exactly 100. -/
theorem market_share_sum_spec (rows : List RawRow)
    (htot : 0 < (rows.map RawRow.registrations).sum) :
    ∃ qs : List ℚ,
      (category_market_share rows).map Prod.snd = qs.map PFloat.val ∧
      qs.sum = 100 := by
  have hT : ((categoryTotals rows).map Prod.snd).sum
      = (rows.map RawRow.registrations).sum :=
    colTotals_sum rows RawRow.category
  have hTpos : ((categoryTotals rows).map Prod.snd).sum ≠ 0 := by
    rw [hT]; exact ne_of_gt htot
  refine ⟨(categoryTotals rows).map fun cv =>
    cv.2 * 100 / ((categoryTotals rows).map Prod.snd).sum, ?_, ?_⟩
  · rw [category_market_share, List.map_map, List.map_map]
    apply List.map_congr_left
    intro cv _
    show fdiv (cv.2 * 100) _ = _
    rw [fdiv, if_neg hTpos]
    rfl
  · rw [show (fun cv : Str × ℚ =>
        cv.2 * 100 / ((categoryTotals rows).map Prod.snd).sum)
        = fun cv : Str × ℚ =>
          Prod.snd cv * (100 / ((categoryTotals rows).map Prod.snd).sum) from by
      funext cv
      ring]
    rw [show (categoryTotals rows).map (fun cv : Str × ℚ =>
        Prod.snd cv * (100 / ((categoryTotals rows).map Prod.snd).sum))
        = ((categoryTotals rows).map Prod.snd).map
          (fun x => x * (100 / ((categoryTotals rows).map Prod.snd).sum)) from by
      rw [List.map_map]
      rfl]
    rw [sum_map_mul_const]
    field_simp

/-! ## Machinery: the `idxmax` folds -/

theorem pfLt_nan_right (a : PFloat) : pfLt a PFloat.nan = false := by
  cases a <;> rfl

theorem pfLt_trans {a b c : PFloat} (hab : pfLt a b = true)
    (hbc : pfLt b c = true) : pfLt a c = true := by
  cases a <;> cases b <;> cases c <;> simp_all [pfLt] <;> linarith

theorem pfLt_negtrans {a b c : PFloat} (hb : b ≠ PFloat.nan)
    (hab : pfLt a b = false) (hbc : pfLt b c = false) : pfLt a c = false := by
  cases a <;> cases b <;> cases c <;> simp_all [pfLt] <;> linarith

theorem pfLt_irrefl (a : PFloat) : pfLt a a = false := by
  cases a <;> simp [pfLt]

theorem pfLt_total {a b : PFloat} (ha : a ≠ PFloat.nan) (hb : b ≠ PFloat.nan)
    (hab : pfLt a b = false) (hne : a ≠ b) : pfLt b a = true := by
  cases a <;> cases b <;> simp_all [pfLt]
  · exact lt_of_le_of_ne hab (fun h => hne (by rw [h]))

/-- Full characterisation of the `idxmax` fold over the `YoY_Growth` column:
on a frame sorted by dims and from an accumulator whose key is below every
upcoming dims and whose value dominates no upcoming tie unfairly, the fold
returns `none` exactly when everything (and the accumulator) is `NaN`, and
otherwise the first row attaining the maximal non-`NaN` value. -/
theorem idxmaxYoY_go (l : List (GRow Str)) :
    ∀ (acc : Option (Str × PFloat)),
      l.Pairwise (fun a b => a.dims ≤ b.dims) →
      (∀ c v, acc = some (c, v) → v ≠ PFloat.nan) →
      (∀ c v, acc = some (c, v) → ∀ r ∈ l, r.yoy = v → c ≤ r.dims) →
      (match l.foldl yoyStep acc with
        | none => acc = none ∧ ∀ r ∈ l, r.yoy = PFloat.nan
        | some (c, v) =>
            v ≠ PFloat.nan ∧
            (acc = some (c, v) ∨ ∃ r ∈ l, r.dims = c ∧ r.yoy = v) ∧
            (∀ r ∈ l, pfLt v r.yoy = false) ∧
            (∀ c2 v2, acc = some (c2, v2) → pfLt v v2 = false) ∧
            (∀ r ∈ l, r.yoy = v → c ≤ r.dims) ∧
            (∀ c2, acc = some (c2, v) → c = c2)) := by
  induction l with
  | nil =>
    intro acc _ haccnan _
    simp only [List.foldl_nil]
    cases acc with
    | none => exact ⟨rfl, by simp⟩
    | some cv =>
      obtain ⟨c, v⟩ := cv
      refine ⟨haccnan c v rfl, Or.inl rfl, by simp, ?_, by simp, ?_⟩
      · intro c2 v2 h
        simp only [Option.some.injEq, Prod.mk.injEq] at h
        obtain ⟨rfl, rfl⟩ := h
        exact pfLt_irrefl v
      · intro c2 h
        simp only [Option.some.injEq, Prod.mk.injEq] at h
        exact h.1
  | cons r rest ih =>
    intro acc hsort haccnan hacckey
    have hsort2 : rest.Pairwise (fun a b => a.dims ≤ b.dims) :=
      List.Pairwise.of_cons hsort
    have hhead : ∀ x ∈ rest, r.dims ≤ x.dims := fun x hx =>
      List.rel_of_pairwise_cons hsort hx
    rw [List.foldl_cons]
    by_cases hnan : r.yoy = PFloat.nan
    · have hacc2 : yoyStep acc r = acc := by simp [yoyStep, hnan]
      rw [hacc2]
      have IH := ih acc hsort2 haccnan
        (fun c v h x hx => hacckey c v h x (List.mem_cons_of_mem r hx))
      cases hres : rest.foldl yoyStep acc with
      | none =>
        rw [hres] at IH
        exact ⟨IH.1, by
          intro x hx
          rcases List.mem_cons.mp hx with rfl | hx2
          · exact hnan
          · exact IH.2 x hx2⟩
      | some cv =>
        obtain ⟨c, v⟩ := cv
        rw [hres] at IH
        obtain ⟨ihnan, ihorig, ihmax, ihmono, ihtie, ihstab⟩ := IH
        refine ⟨ihnan, ?_, ?_, ihmono, ?_, ihstab⟩
        · rcases ihorig with h | ⟨x, hx, hxx⟩
          · exact Or.inl h
          · exact Or.inr ⟨x, List.mem_cons_of_mem r hx, hxx⟩
        · intro x hx
          rcases List.mem_cons.mp hx with rfl | hx2
          · rw [hnan]; exact pfLt_nan_right v
          · exact ihmax x hx2
        · intro x hx hxv
          rcases List.mem_cons.mp hx with rfl | hx2
          · exact absurd (hxv ▸ hnan) ihnan
          · exact ihtie x hx2 hxv
    · cases acc with
      | none =>
        have hacc2 : yoyStep none r = some (r.dims, r.yoy) := by
          simp [yoyStep, hnan]
        rw [hacc2]
        have IH := ih (some (r.dims, r.yoy)) hsort2
          (fun c v h => by
            simp only [Option.some.injEq, Prod.mk.injEq] at h
            exact h.2 ▸ hnan)
          (fun c v h x hx _ => by
            simp only [Option.some.injEq, Prod.mk.injEq] at h
            exact h.1 ▸ hhead x hx)
        cases hres : rest.foldl yoyStep (some (r.dims, r.yoy)) with
        | none =>
          rw [hres] at IH
          exact absurd IH.1 (by simp)
        | some cv =>
          obtain ⟨c, v⟩ := cv
          rw [hres] at IH
          obtain ⟨ihnan, ihorig, ihmax, ihmono, ihtie, ihstab⟩ := IH
          refine ⟨ihnan, ?_, ?_, by simp, ?_, by simp⟩
          · rcases ihorig with h | ⟨x, hx, hxx⟩
            · simp only [Option.some.injEq, Prod.mk.injEq] at h
              exact Or.inr ⟨r, List.mem_cons_self r rest, h.1, h.2⟩
            · exact Or.inr ⟨x, List.mem_cons_of_mem r hx, hxx⟩
          · intro x hx
            rcases List.mem_cons.mp hx with rfl | hx2
            · exact ihmono _ _ rfl
            · exact ihmax x hx2
          · intro x hx hxv
            rcases List.mem_cons.mp hx with rfl | hx2
            · exact (ihstab _ (by rw [hxv])).le
            · exact ihtie x hx2 hxv
      | some cv0 =>
        obtain ⟨c0, v0⟩ := cv0
        have hv0nan : v0 ≠ PFloat.nan := haccnan c0 v0 rfl
        by_cases hlt : pfLt v0 r.yoy = true
        · have hacc2 : yoyStep (some (c0, v0)) r = some (r.dims, r.yoy) := by
            simp [yoyStep, hnan, hlt]
          rw [hacc2]
          have IH := ih (some (r.dims, r.yoy)) hsort2
            (fun c v h => by
              simp only [Option.some.injEq, Prod.mk.injEq] at h
              exact h.2 ▸ hnan)
            (fun c v h x hx _ => by
              simp only [Option.some.injEq, Prod.mk.injEq] at h
              exact h.1 ▸ hhead x hx)
          cases hres : rest.foldl yoyStep (some (r.dims, r.yoy)) with
          | none =>
            rw [hres] at IH
            exact absurd IH.1 (by simp)
          | some cv =>
            obtain ⟨c, v⟩ := cv
            rw [hres] at IH
            obtain ⟨ihnan, ihorig, ihmax, ihmono, ihtie, ihstab⟩ := IH
            have hvr : pfLt v r.yoy = false := ihmono r.dims r.yoy rfl
            refine ⟨ihnan, ?_, ?_, ?_, ?_, ?_⟩
            · rcases ihorig with h | ⟨x, hx, hxx⟩
              · simp only [Option.some.injEq, Prod.mk.injEq] at h
                exact Or.inr ⟨r, List.mem_cons_self r rest, h.1, h.2⟩
              · exact Or.inr ⟨x, List.mem_cons_of_mem r hx, hxx⟩
            · intro x hx
              rcases List.mem_cons.mp hx with rfl | hx2
              · exact hvr
              · exact ihmax x hx2
            · intro c2 v2 h
              simp only [Option.some.injEq, Prod.mk.injEq] at h
              rw [← h.2]
              by_contra hc
              have hvv : pfLt v v0 = true := by
                cases h2 : pfLt v v0
                · exact absurd h2 hc
                · rfl
              exact absurd (pfLt_trans hvv hlt) (by rw [hvr]; simp)
            · intro x hx hxv
              rcases List.mem_cons.mp hx with rfl | hx2
              · exact (ihstab x.dims (by rw [hxv])).le
              · exact ihtie x hx2 hxv
            · intro c2 h
              simp only [Option.some.injEq, Prod.mk.injEq] at h
              obtain ⟨rfl, rfl⟩ := h
              exact absurd hlt (by rw [hvr]; simp)
        · have hltf : pfLt v0 r.yoy = false := by
            cases h2 : pfLt v0 r.yoy
            · rfl
            · exact absurd h2 hlt
          have hacc2 : yoyStep (some (c0, v0)) r = some (c0, v0) := by
            simp [yoyStep, hnan, hltf]
          rw [hacc2]
          have IH := ih (some (c0, v0)) hsort2
            (fun c v h => by
              simp only [Option.some.injEq, Prod.mk.injEq] at h
              exact h.2 ▸ hv0nan)
            (fun c v h x hx hxv => by
              simp only [Option.some.injEq, Prod.mk.injEq] at h
              exact h.1 ▸ hacckey c0 v0 rfl x (List.mem_cons_of_mem r hx)
                (h.2 ▸ hxv))
          cases hres : rest.foldl yoyStep (some (c0, v0)) with
          | none =>
            rw [hres] at IH
            exact absurd IH.1 (by simp)
          | some cv =>
            obtain ⟨c, v⟩ := cv
            rw [hres] at IH
            obtain ⟨ihnan, ihorig, ihmax, ihmono, ihtie, ihstab⟩ := IH
            have hvv0 : pfLt v v0 = false := ihmono c0 v0 rfl
            refine ⟨ihnan, ?_, ?_, ?_, ?_, ?_⟩
            · rcases ihorig with h | ⟨x, hx, hxx⟩
              · exact Or.inl h
              · exact Or.inr ⟨x, List.mem_cons_of_mem r hx, hxx⟩
            · intro x hx
              rcases List.mem_cons.mp hx with rfl | hx2
              · exact pfLt_negtrans hv0nan hvv0 hltf
              · exact ihmax x hx2
            · intro c2 v2 h
              simp only [Option.some.injEq, Prod.mk.injEq] at h
              obtain ⟨rfl, rfl⟩ := h
              exact hvv0
            · intro x hx hxv
              rcases List.mem_cons.mp hx with rfl | hx2
              · by_cases hv0v : v0 = v
                · have hc : c = c0 := ihstab c0 (by rw [hv0v])
                  rw [hc]
                  exact hacckey c0 v0 rfl x (List.mem_cons_self x rest)
                    (by rw [hxv, hv0v])
                · have := pfLt_total ihnan hv0nan hvv0 (fun h => hv0v h.symm)
                  rw [hxv] at hltf
                  exact absurd this (by rw [hltf]; simp)
              · exact ihtie x hx2 hxv
            · intro c2 h
              simp only [Option.some.injEq, Prod.mk.injEq] at h
              rw [← h.1]
              exact ihstab c0 (by rw [h.2])

theorem calc_growth_dims_pairwise (rows : List (Event δ)) :
    (calculate_growth_metrics rows).Pairwise (fun a b => a.dims ≤ b.dims) := by
  rw [List.pairwise_iff_get]
  intro i j hij
  obtain ⟨i, hi⟩ := i
  obtain ⟨j, hj⟩ := j
  have hgi : i < (grouped rows).length := by rwa [calc_growth_length] at hi
  have hgj : j < (grouped rows).length := by rwa [calc_growth_length] at hj
  have d1i := (calc_growth_fields rows i hi hgi).1
  have d1j := (calc_growth_fields rows j hj hgj).1
  simp only [d1i, d1j]
  obtain ⟨hle, _⟩ := grouped_key_strict rows i j hgi hgj hij
  rcases hle with h | ⟨e1, _⟩
  · exact le_of_lt h
  · exact le_of_eq e1

theorem latestRows_pairwise (rows : List RawRow) :
    (latestRows rows).Pairwise (fun a b => a.dims ≤ b.dims) := by
  rw [latestRows]
  exact (calc_growth_dims_pairwise (toCategoryEvents rows)).filter _

theorem growthLeader_extract (rows : List RawRow) (c : Str) (v : PFloat)
    (hgl : growthLeader rows = .ok (some (c, v))) :
    idxmaxYoY (latestRows rows) = some (c, v) := by
  rw [growthLeader] at hgl
  split_ifs at hgl
  · exact absurd hgl (by simp)
  · exact absurd hgl (by simp)
  · cases hres : idxmaxYoY (latestRows rows) with
    | none => rw [hres] at hgl; exact absurd hgl (by simp)
    | some cv =>
      rw [hres] at hgl
      simp only [Except.ok.injEq, Option.some.injEq] at hgl
      rw [hgl]

/-! ## C6: the growth-leader selection -/

/-- **C6** (confirmed).  When the growth-leader insight is produced, it names
the category of a latest-year record whose `YoY_Growth` is defined (not
`NaN`) and maximal among the latest-year records, with undefined records
never selected and ties broken towards the alphabetically first category. -/
theorem growth_leader_spec (rows : List RawRow) (c : Str) (v : PFloat)
    (hgl : growthLeader rows = .ok (some (c, v))) :
    v ≠ PFloat.nan ∧
    (∃ r ∈ latestRows rows, r.dims = c ∧ r.yoy = v) ∧
    (∀ r ∈ latestRows rows, pfLt v r.yoy = false) ∧
    (∀ r ∈ latestRows rows, r.yoy = v → c ≤ r.dims) := by
  have hmax := growthLeader_extract rows c v hgl
  have hfull := idxmaxYoY_go (latestRows rows) none (latestRows_pairwise rows)
    (by simp) (by simp)
  rw [idxmaxYoY] at hmax
  rw [hmax] at hfull
  obtain ⟨hnan, horig, hmaxall, _, htie, _⟩ := hfull
  refine ⟨hnan, ?_, hmaxall, htie⟩
  rcases horig with h | h
  · exact absurd h (by simp)
  · exact h

/-! ## C5: the insight list -/

theorem calc_growth_ne_nil (rows : List (Event δ)) (hne : rows ≠ []) :
    calculate_growth_metrics rows ≠ [] := by
  intro h
  have hlen : (calculate_growth_metrics rows).length = 0 := by rw [h]; rfl
  rw [calc_growth_length, grouped_length] at hlen
  cases rows with
  | nil => exact hne rfl
  | cons r rest =>
    have hmem : r.key ∈ aggKeys (r :: rest) := by
      rw [aggKeys, (List.perm_insertionSort keyLE _).mem_iff, List.mem_dedup]
      exact List.mem_map_of_mem Event.key (List.mem_cons_self r rest)
    rw [List.length_eq_zero] at hlen
    rw [hlen] at hmem
    exact absurd hmem (List.not_mem_nil _)

theorem latestRows_ne_nil (rows : List RawRow) (hne : rows ≠ []) :
    latestRows rows ≠ [] := by
  have hg : calculate_growth_metrics (toCategoryEvents rows) ≠ [] := by
    apply calc_growth_ne_nil
    intro h
    rw [toCategoryEvents, List.map_eq_nil_iff] at h
    exact hne h
  have hmax : ((calculate_growth_metrics (toCategoryEvents rows)).map
      GRow.year).maximum ≠ ⊥ :=
    List.maximum_ne_bot_of_ne_nil (by
      intro h
      rw [List.map_eq_nil_iff] at h
      exact hg h)
  obtain ⟨m, hm⟩ := WithBot.ne_bot_iff_exists.mp hmax
  have hmem : m ∈ (calculate_growth_metrics (toCategoryEvents rows)).map
      GRow.year := List.maximum_mem hm.symm
  obtain ⟨r, hr, hry⟩ := List.mem_map.mp hmem
  have hrl : r ∈ latestRows rows := by
    simp only [latestRows]
    rw [List.mem_filter]
    refine ⟨hr, ?_⟩
    simp only [decide_eq_true_eq]
    rw [gMaxYear, ← hm, WithBot.unbot'_coe]
    exact hry
  intro hnil
  rw [hnil] at hrl
  exact absurd hrl (List.not_mem_nil _)

theorem idxmaxQ_isSome {κ : Type} (l : List (κ × ℚ)) (h : l ≠ []) :
    ∃ k, idxmaxQ l = some k := by
  cases l with
  | nil => exact absurd rfl h
  | cons kv rest => exact ⟨_, rfl⟩

theorem distinctSorted_ne_nil (l : List Str) (h : l ≠ []) :
    distinctSorted l ≠ [] := by
  cases l with
  | nil => exact absurd rfl h
  | cons a t =>
    intro hnil
    have hmem : a ∈ distinctSorted (a :: t) := by
      rw [distinctSorted, (List.perm_insertionSort _ _).mem_iff, List.mem_dedup]
      exact List.mem_cons_self a t
    rw [hnil] at hmem
    exact absurd hmem (List.not_mem_nil _)

theorem foldl_yoyStep_nan (l : List (GRow Str))
    (h : ∀ r ∈ l, r.yoy = PFloat.nan) :
    ∀ acc, l.foldl yoyStep acc = acc := by
  induction l with
  | nil => intro acc; rfl
  | cons r rest ih =>
    intro acc
    rw [List.foldl_cons,
      show yoyStep acc r = acc from by
        simp [yoyStep, h r (List.mem_cons_self r rest)]]
    exact ih (fun x hx => h x (List.mem_cons_of_mem r hx)) acc

/-- **C5** (amended).  For any input whose most recent year has at least one
record with computable (non-`NaN`) YoY growth, the Insights block produces
exactly four findings, in the fixed order market leadership, growth leader,
market concentration, seasonality.  When the input is non-empty but every
latest-year `YoY_Growth` is `NaN`, the all-`NaN` `idxmax` raises instead and
no findings at all are produced. -/
theorem derive_insights_amended :
    (∀ rows : List RawRow,
      (∃ r ∈ latestRows rows, r.yoy ≠ PFloat.nan) →
      ∃ dc share gc gv pm,
        derive_insights rows
          = .ok [Insight.leadership dc share, Insight.growthLeader gc gv,
              Insight.concentration (concentration_ratio rows),
              Insight.seasonality pm]) ∧
    (∀ rows : List RawRow, rows ≠ [] →
      (∀ r ∈ latestRows rows, r.yoy = PFloat.nan) →
      derive_insights rows = .error ()) := by
  constructor
  · intro rows hex
    obtain ⟨r, hrmem, hrnan⟩ := hex
    have hrg : r ∈ calculate_growth_metrics (toCategoryEvents rows) := by
      have h2 := hrmem
      simp only [latestRows] at h2
      exact (List.mem_filter.mp h2).1
    have hgne : calculate_growth_metrics (toCategoryEvents rows) ≠ [] := by
      intro h
      rw [h] at hrg
      exact absurd hrg (List.not_mem_nil _)
    have hrowsne : rows ≠ [] := by
      intro h
      subst h
      exact absurd hrg (by
        simp only [calculate_growth_metrics, toCategoryEvents, grouped,
          aggKeys, growthRows]
        exact List.not_mem_nil r)
    have hlne : latestRows rows ≠ [] := by
      intro h
      rw [h] at hrmem
      exact absurd hrmem (List.not_mem_nil _)
    have hcatne : categoryTotals rows ≠ [] := by
      rw [categoryTotals]
      rw [Ne, List.map_eq_nil_iff]
      apply distinctSorted_ne_nil
      rw [Ne, List.map_eq_nil_iff]
      exact hrowsne
    obtain ⟨dc, hdc⟩ := idxmaxQ_isSome (categoryTotals rows) hcatne
    have hpmne : monthNamesPresent rows ≠ [] := by
      rw [monthNamesPresent]
      apply distinctSorted_ne_nil
      rw [Ne, List.map_eq_nil_iff]
      exact hrowsne
    obtain ⟨pm, hpm⟩ := idxmaxQ_isSome
      ((monthNamesPresent rows).map fun s => (s, monthNameMean rows s))
      (by rw [Ne, List.map_eq_nil_iff]; exact hpmne)
    have hpm2 : app_peak_month rows = some pm := hpm
    cases hres : idxmaxYoY (latestRows rows) with
    | none =>
      have hfull := idxmaxYoY_go (latestRows rows) none
        (latestRows_pairwise rows) (by simp) (by simp)
      rw [idxmaxYoY] at hres
      rw [hres] at hfull
      exact absurd (hfull.2 r hrmem) hrnan
    | some cv =>
      obtain ⟨gc, gv⟩ := cv
      have hgl : growthLeader rows = .ok (some (gc, gv)) := by
        rw [growthLeader, if_neg (by simp [hgne]), if_neg (by simp [hlne]),
          hres]
      refine ⟨dc, dominantShare rows dc, gc, gv, pm, ?_⟩
      simp [derive_insights, hdc, hgl, hpm2]
  · intro rows hne hallnan
    have hlne := latestRows_ne_nil rows hne
    have hgne : calculate_growth_metrics (toCategoryEvents rows) ≠ [] := by
      apply calc_growth_ne_nil
      rw [Ne, toCategoryEvents, List.map_eq_nil_iff]
      exact hne
    have hnone : idxmaxYoY (latestRows rows) = none := by
      rw [idxmaxYoY]
      exact foldl_yoyStep_nan _ hallnan none
    have hgl : growthLeader rows = .error () := by
      rw [growthLeader, if_neg (by simp [hgne]), if_neg (by simp [hlne]),
        hnone]
    cases hdc : idxmaxQ (categoryTotals rows) with
    | none => simp [derive_insights, hdc]
    | some dc =>
      cases hpm : app_peak_month rows with
      | none => simp [derive_insights, hdc, hgl, hpm]
      | some pm => simp [derive_insights, hdc, hgl, hpm]

/-! ## C7: seasonality -/

theorem idxmaxQGo_full {κ : Type} [LinearOrder κ] :
    ∀ (l : List (κ × ℚ)) (k : κ) (v : ℚ),
      l.Pairwise (fun a b => a.1 ≤ b.1) →
      (∀ kv ∈ l, k ≤ kv.1) →
      ∃ w, ((idxmaxQGo k v l = k ∧ w = v) ∨
              ((idxmaxQGo k v l, w) ∈ l ∧ v < w)) ∧
        v ≤ w ∧ (∀ kv ∈ l, kv.2 ≤ w) ∧
        (∀ kv ∈ l, kv.2 = w → v < w → idxmaxQGo k v l ≤ kv.1) ∧
        (v = w → idxmaxQGo k v l = k) := by
  intro l
  induction l with
  | nil =>
    intro k v _ _
    exact ⟨v, Or.inl ⟨rfl, rfl⟩, le_refl v, by simp, by simp, fun _ => rfl⟩
  | cons kv2 rest ih =>
    intro k v hsort hkeys
    obtain ⟨k2, v2⟩ := kv2
    have hsort2 := List.Pairwise.of_cons hsort
    have hhead : ∀ kv ∈ rest, k2 ≤ kv.1 := fun kv hkv =>
      List.rel_of_pairwise_cons hsort hkv
    by_cases hlt : v < v2
    · have hgo : idxmaxQGo k v ((k2, v2) :: rest) = idxmaxQGo k2 v2 rest := by
        simp [idxmaxQGo, hlt]
      obtain ⟨w, horig, hvw, hmax, htie, hstab⟩ := ih k2 v2 hsort2 hhead
      rw [hgo]
      refine ⟨w, ?_, ?_, ?_, ?_, ?_⟩
      · rcases horig with ⟨he, hw⟩ | ⟨hm, hvw2⟩
        · exact Or.inr ⟨by rw [he, hw]; exact List.mem_cons_self _ _,
            hw ▸ hlt⟩
        · exact Or.inr ⟨List.mem_cons_of_mem _ hm, lt_trans hlt hvw2⟩
      · exact le_of_lt (lt_of_lt_of_le hlt hvw)
      · intro kv hkv
        rcases List.mem_cons.mp hkv with rfl | h2
        · exact hvw
        · exact hmax kv h2
      · intro kv hkv hkvw _
        rcases List.mem_cons.mp hkv with rfl | h2
        · exact le_of_eq (hstab (show v2 = w from hkvw))
        · rcases lt_or_eq_of_le hvw with h3 | h3
          · exact htie kv h2 hkvw h3
          · rw [hstab h3]
            exact hhead kv h2
      · intro hvweq
        exact absurd (lt_of_lt_of_le hlt hvw) (by rw [← hvweq]; exact lt_irrefl v)
    · have hgo : idxmaxQGo k v ((k2, v2) :: rest) = idxmaxQGo k v rest := by
        simp [idxmaxQGo, hlt]
      have hv2v : v2 ≤ v := not_lt.mp hlt
      obtain ⟨w, horig, hvw, hmax, htie, hstab⟩ := ih k v hsort2
        (fun kv hkv => hkeys kv (List.mem_cons_of_mem _ hkv))
      rw [hgo]
      refine ⟨w, ?_, hvw, ?_, ?_, hstab⟩
      · rcases horig with h | ⟨hm, hvw2⟩
        · exact Or.inl h
        · exact Or.inr ⟨List.mem_cons_of_mem _ hm, hvw2⟩
      · intro kv hkv
        rcases List.mem_cons.mp hkv with rfl | h2
        · exact le_trans hv2v hvw
        · exact hmax kv h2
      · intro kv hkv hkvw hvltw
        rcases List.mem_cons.mp hkv with rfl | h2
        · exact absurd (lt_of_le_of_lt hv2v hvltw)
            (by rw [show v2 = w from hkvw]; exact lt_irrefl w)
        · exact htie kv h2 hkvw hvltw

theorem idxminQGo_full {κ : Type} [LinearOrder κ] :
    ∀ (l : List (κ × ℚ)) (k : κ) (v : ℚ),
      l.Pairwise (fun a b => a.1 ≤ b.1) →
      (∀ kv ∈ l, k ≤ kv.1) →
      ∃ w, ((idxminQGo k v l = k ∧ w = v) ∨
              ((idxminQGo k v l, w) ∈ l ∧ w < v)) ∧
        w ≤ v ∧ (∀ kv ∈ l, w ≤ kv.2) ∧
        (∀ kv ∈ l, kv.2 = w → w < v → idxminQGo k v l ≤ kv.1) ∧
        (v = w → idxminQGo k v l = k) := by
  intro l
  induction l with
  | nil =>
    intro k v _ _
    exact ⟨v, Or.inl ⟨rfl, rfl⟩, le_refl v, by simp, by simp, fun _ => rfl⟩
  | cons kv2 rest ih =>
    intro k v hsort hkeys
    obtain ⟨k2, v2⟩ := kv2
    have hsort2 := List.Pairwise.of_cons hsort
    have hhead : ∀ kv ∈ rest, k2 ≤ kv.1 := fun kv hkv =>
      List.rel_of_pairwise_cons hsort hkv
    by_cases hlt : v2 < v
    · have hgo : idxminQGo k v ((k2, v2) :: rest) = idxminQGo k2 v2 rest := by
        simp [idxminQGo, hlt]
      obtain ⟨w, horig, hvw, hmin, htie, hstab⟩ := ih k2 v2 hsort2 hhead
      rw [hgo]
      refine ⟨w, ?_, ?_, ?_, ?_, ?_⟩
      · rcases horig with ⟨he, hw⟩ | ⟨hm, hvw2⟩
        · exact Or.inr ⟨by rw [he, hw]; exact List.mem_cons_self _ _,
            hw ▸ hlt⟩
        · exact Or.inr ⟨List.mem_cons_of_mem _ hm, lt_trans hvw2 hlt⟩
      · exact le_of_lt (lt_of_le_of_lt hvw hlt)
      · intro kv hkv
        rcases List.mem_cons.mp hkv with rfl | h2
        · exact hvw
        · exact hmin kv h2
      · intro kv hkv hkvw _
        rcases List.mem_cons.mp hkv with rfl | h2
        · exact le_of_eq (hstab (show v2 = w from hkvw))
        · rcases lt_or_eq_of_le hvw with h3 | h3
          · exact htie kv h2 hkvw h3
          · rw [hstab h3.symm]
            exact hhead kv h2
      · intro hvweq
        exact absurd (lt_of_le_of_lt hvw hlt) (by rw [hvweq]; exact lt_irrefl w)
    · have hgo : idxminQGo k v ((k2, v2) :: rest) = idxminQGo k v rest := by
        simp [idxminQGo, hlt]
      have hv2v : v ≤ v2 := not_lt.mp hlt
      obtain ⟨w, horig, hvw, hmin, htie, hstab⟩ := ih k v hsort2
        (fun kv hkv => hkeys kv (List.mem_cons_of_mem _ hkv))
      rw [hgo]
      refine ⟨w, ?_, hvw, ?_, ?_, hstab⟩
      · rcases horig with h | ⟨hm, hvw2⟩
        · exact Or.inl h
        · exact Or.inr ⟨List.mem_cons_of_mem _ hm, hvw2⟩
      · intro kv hkv
        rcases List.mem_cons.mp hkv with rfl | h2
        · exact le_trans hvw hv2v
        · exact hmin kv h2
      · intro kv hkv hkvw hvltw
        rcases List.mem_cons.mp hkv with rfl | h2
        · exact absurd (lt_of_lt_of_le hvltw hv2v)
            (by rw [show v2 = w from hkvw]; exact lt_irrefl w)
        · exact htie kv h2 hkvw hvltw

theorem idxmaxQ_spec {κ : Type} [LinearOrder κ] (l : List (κ × ℚ))
    (hsort : l.Pairwise (fun a b => a.1 ≤ b.1)) (hne : l ≠ []) :
    ∃ k v, idxmaxQ l = some k ∧ (k, v) ∈ l ∧ (∀ kv ∈ l, kv.2 ≤ v) ∧
      (∀ kv ∈ l, kv.2 = v → k ≤ kv.1) := by
  cases l with
  | nil => exact absurd rfl hne
  | cons kv0 rest =>
    obtain ⟨k0, v0⟩ := kv0
    have hhead : ∀ kv ∈ rest, k0 ≤ kv.1 := fun kv hkv =>
      List.rel_of_pairwise_cons hsort hkv
    obtain ⟨w, horig, hvw, hmax, htie, hstab⟩ :=
      idxmaxQGo_full rest k0 v0 (List.Pairwise.of_cons hsort) hhead
    refine ⟨idxmaxQGo k0 v0 rest, w, rfl, ?_, ?_, ?_⟩
    · rcases horig with ⟨he, hw⟩ | ⟨hm, _⟩
      · rw [he, hw]
        exact List.mem_cons_self _ _
      · exact List.mem_cons_of_mem _ hm
    · intro kv hkv
      rcases List.mem_cons.mp hkv with rfl | h2
      · exact hvw
      · exact hmax kv h2
    · intro kv hkv hkvw
      rcases List.mem_cons.mp hkv with rfl | h2
      · exact le_of_eq (hstab (show v0 = w from hkvw))
      · rcases lt_or_eq_of_le hvw with h3 | h3
        · exact htie kv h2 hkvw h3
        · rw [hstab h3]
          exact hhead kv h2

theorem idxminQ_spec {κ : Type} [LinearOrder κ] (l : List (κ × ℚ))
    (hsort : l.Pairwise (fun a b => a.1 ≤ b.1)) (hne : l ≠ []) :
    ∃ k v, idxminQ l = some k ∧ (k, v) ∈ l ∧ (∀ kv ∈ l, v ≤ kv.2) ∧
      (∀ kv ∈ l, kv.2 = v → k ≤ kv.1) := by
  cases l with
  | nil => exact absurd rfl hne
  | cons kv0 rest =>
    obtain ⟨k0, v0⟩ := kv0
    have hhead : ∀ kv ∈ rest, k0 ≤ kv.1 := fun kv hkv =>
      List.rel_of_pairwise_cons hsort hkv
    obtain ⟨w, horig, hvw, hmin, htie, hstab⟩ :=
      idxminQGo_full rest k0 v0 (List.Pairwise.of_cons hsort) hhead
    refine ⟨idxminQGo k0 v0 rest, w, rfl, ?_, ?_, ?_⟩
    · rcases horig with ⟨he, hw⟩ | ⟨hm, _⟩
      · rw [he, hw]
        exact List.mem_cons_self _ _
      · exact List.mem_cons_of_mem _ hm
    · intro kv hkv
      rcases List.mem_cons.mp hkv with rfl | h2
      · exact hvw
      · exact hmin kv h2
    · intro kv hkv hkvw
      rcases List.mem_cons.mp hkv with rfl | h2
      · exact le_of_eq (hstab (show v0 = w from hkvw))
      · rcases lt_or_eq_of_le hvw with h3 | h3
        · exact htie kv h2 hkvw h3
        · rw [hstab h3.symm]
          exact hhead kv h2

theorem monthsPresent_ne_nil (rows : List RawRow) (hne : rows ≠ []) :
    monthsPresent rows ≠ [] := by
  cases rows with
  | nil => exact absurd rfl hne
  | cons r rest =>
    intro hnil
    have hmem : r.month ∈ monthsPresent (r :: rest) := by
      rw [monthsPresent, (List.perm_insertionSort _ _).mem_iff, List.mem_dedup]
      exact List.mem_map_of_mem RawRow.month (List.mem_cons_self r rest)
    rw [hnil] at hmem
    exact absurd hmem (List.not_mem_nil _)

/-- **C7** (amended).  `identify_trends` (src/utils.py) groups by calendar
month number, averages `count` over all rows of that month across the years
present, and reports the months of maximal and minimal average, resolving
ties towards the first month in calendar order.  The dashboard's own
seasonality insight (src/app.py) instead groups by the English month-name
string, so its tie-break is towards the alphabetically first month name,
not the calendar-first month. -/
theorem seasonality_amended (rows : List RawRow) (hne : rows ≠ []) :
    (∃ m, identify_trends_peak rows = some m ∧ m ∈ monthsPresent rows ∧
      (∀ m2 ∈ monthsPresent rows, monthMean rows m2 ≤ monthMean rows m) ∧
      (∀ m2 ∈ monthsPresent rows, monthMean rows m2 = monthMean rows m →
        m ≤ m2)) ∧
    (∃ m, identify_trends_low rows = some m ∧ m ∈ monthsPresent rows ∧
      (∀ m2 ∈ monthsPresent rows, monthMean rows m ≤ monthMean rows m2) ∧
      (∀ m2 ∈ monthsPresent rows, monthMean rows m2 = monthMean rows m →
        m ≤ m2)) ∧
    (∃ s, app_peak_month rows = some s ∧ s ∈ monthNamesPresent rows ∧
      (∀ s2 ∈ monthNamesPresent rows,
        monthNameMean rows s2 ≤ monthNameMean rows s) ∧
      (∀ s2 ∈ monthNamesPresent rows,
        monthNameMean rows s2 = monthNameMean rows s → s ≤ s2)) := by
  have hmsort : (monthsPresent rows).Sorted (· ≤ ·) :=
    List.sorted_insertionSort _ _
  have hmne := monthsPresent_ne_nil rows hne
  have hnsort : (monthNamesPresent rows).Sorted (· ≤ ·) :=
    List.sorted_insertionSort _ _
  have hnne : monthNamesPresent rows ≠ [] := by
    rw [monthNamesPresent]
    apply distinctSorted_ne_nil
    rw [Ne, List.map_eq_nil_iff]
    exact hne
  refine ⟨?_, ?_, ?_⟩
  · obtain ⟨k, v, hidx, hmem, hmax, htie⟩ := idxmaxQ_spec
      ((monthsPresent rows).map fun m => (m, monthMean rows m))
      (List.pairwise_map.mpr hmsort)
      (by rw [Ne, List.map_eq_nil_iff]; exact hmne)
    obtain ⟨m0, hm0, heq⟩ := List.mem_map.mp hmem
    simp only [Prod.mk.injEq] at heq
    refine ⟨k, hidx, heq.1 ▸ hm0, ?_, ?_⟩
    · intro m2 hm2
      have := hmax (m2, monthMean rows m2)
        (List.mem_map_of_mem (fun m => (m, monthMean rows m)) hm2)
      rw [← heq.2, heq.1] at this
      exact this
    · intro m2 hm2 hv
      have := htie (m2, monthMean rows m2)
        (List.mem_map_of_mem (fun m => (m, monthMean rows m)) hm2)
        (by show monthMean rows m2 = v
            rw [← heq.2, heq.1]
            exact hv)
      exact this
  · obtain ⟨k, v, hidx, hmem, hmin, htie⟩ := idxminQ_spec
      ((monthsPresent rows).map fun m => (m, monthMean rows m))
      (List.pairwise_map.mpr hmsort)
      (by rw [Ne, List.map_eq_nil_iff]; exact hmne)
    obtain ⟨m0, hm0, heq⟩ := List.mem_map.mp hmem
    simp only [Prod.mk.injEq] at heq
    refine ⟨k, hidx, heq.1 ▸ hm0, ?_, ?_⟩
    · intro m2 hm2
      have := hmin (m2, monthMean rows m2)
        (List.mem_map_of_mem (fun m => (m, monthMean rows m)) hm2)
      rw [← heq.2, heq.1] at this
      exact this
    · intro m2 hm2 hv
      have := htie (m2, monthMean rows m2)
        (List.mem_map_of_mem (fun m => (m, monthMean rows m)) hm2)
        (by show monthMean rows m2 = v
            rw [← heq.2, heq.1]
            exact hv)
      exact this
  · obtain ⟨k, v, hidx, hmem, hmax, htie⟩ := idxmaxQ_spec
      ((monthNamesPresent rows).map fun s => (s, monthNameMean rows s))
      (List.pairwise_map.mpr hnsort)
      (by rw [Ne, List.map_eq_nil_iff]; exact hnne)
    obtain ⟨s0, hs0, heq⟩ := List.mem_map.mp hmem
    simp only [Prod.mk.injEq] at heq
    refine ⟨k, hidx, heq.1 ▸ hs0, ?_, ?_⟩
    · intro s2 hs2
      have := hmax (s2, monthNameMean rows s2)
        (List.mem_map_of_mem (fun s => (s, monthNameMean rows s)) hs2)
      rw [← heq.2, heq.1] at this
      exact this
    · intro s2 hs2 hv
      have := htie (s2, monthNameMean rows s2)
        (List.mem_map_of_mem (fun s => (s, monthNameMean rows s)) hs2)
        (by show monthNameMean rows s2 = v
            rw [← heq.2, heq.1]
            exact hv)
      exact this

/-! ## C8: top-5 concentration ratio -/

theorem manuTotals_exConc : manufacturerTotals exConc
    = [("A".data, 100), ("B".data, 80), ("C".data, 60), ("D".data, 40),
       ("E".data, 20), ("F".data, 10)] := by
  rw [manufacturerTotals,
    show distinctSorted (exConc.map RawRow.manufacturer)
      = ["A".data, "B".data, "C".data, "D".data, "E".data, "F".data] from by
      decide]
  rw [List.map_cons, List.map_cons, List.map_cons, List.map_cons,
    List.map_cons, List.map_cons, List.map_nil]
  rw [show colTotal exConc RawRow.manufacturer "A".data = 100 from by
    rw [colTotal, show List.filter _ exConc
      = [(⟨2021, 1, "2W".data, "A".data, 100⟩ : RawRow)] from by decide]
    norm_num]
  rw [show colTotal exConc RawRow.manufacturer "B".data = 80 from by
    rw [colTotal, show List.filter _ exConc
      = [(⟨2021, 1, "2W".data, "B".data, 80⟩ : RawRow)] from by decide]
    norm_num]
  rw [show colTotal exConc RawRow.manufacturer "C".data = 60 from by
    rw [colTotal, show List.filter _ exConc
      = [(⟨2021, 1, "2W".data, "C".data, 60⟩ : RawRow)] from by decide]
    norm_num]
  rw [show colTotal exConc RawRow.manufacturer "D".data = 40 from by
    rw [colTotal, show List.filter _ exConc
      = [(⟨2021, 1, "2W".data, "D".data, 40⟩ : RawRow)] from by decide]
    norm_num]
  rw [show colTotal exConc RawRow.manufacturer "E".data = 20 from by
    rw [colTotal, show List.filter _ exConc
      = [(⟨2021, 1, "2W".data, "E".data, 20⟩ : RawRow)] from by decide]
    norm_num]
  rw [show colTotal exConc RawRow.manufacturer "F".data = 10 from by
    rw [colTotal, show List.filter _ exConc
      = [(⟨2021, 1, "2W".data, "F".data, 10⟩ : RawRow)] from by decide]
    norm_num]

/-- **C8** (confirmed).  The concentration ratio is the share of total
registrations held by five manufacturers whose totals dominate all the
others (the top 5 of the totals series); on the spec's concrete scenario
`A:100, B:80, C:60, D:40, E:20, F:10` it is `30000/310 = 3000/31 ≈ 96.77`. -/
theorem concentration_ratio_spec :
    (∀ rows : List RawRow,
      0 < (rows.map RawRow.registrations).sum →
      ∃ top other : List (Str × ℚ),
        List.Perm (top ++ other) (manufacturerTotals rows) ∧
        top.length = min 5 (manufacturerTotals rows).length ∧
        (∀ a ∈ top, ∀ b ∈ other, b.2 ≤ a.2) ∧
        concentration_ratio rows
          = PFloat.val ((top.map Prod.snd).sum
              / (rows.map RawRow.registrations).sum * 100)) ∧
    concentration_ratio exConc = PFloat.val (3000 / 31) := by
  constructor
  · intro rows htot
    have hT : ((manufacturerTotals rows).map Prod.snd).sum
        = (rows.map RawRow.registrations).sum := by
      rw [manufacturerTotals]
      exact colTotals_sum rows RawRow.manufacturer
    have hTne : ((manufacturerTotals rows).map Prod.snd).sum ≠ 0 := by
      rw [hT]
      exact ne_of_gt htot
    have hperm : List.Perm (List.insertionSort valGE (manufacturerTotals rows))
        (manufacturerTotals rows) := List.perm_insertionSort _ _
    have hsorted : (List.insertionSort valGE
        (manufacturerTotals rows)).Pairwise valGE :=
      List.sorted_insertionSort _ _
    refine ⟨(List.insertionSort valGE (manufacturerTotals rows)).take 5,
      (List.insertionSort valGE (manufacturerTotals rows)).drop 5,
      by rw [List.take_append_drop]; exact hperm, ?_, ?_, ?_⟩
    · rw [List.length_take, hperm.length_eq]
    · rw [← List.take_append_drop 5
        (List.insertionSort valGE (manufacturerTotals rows))] at hsorted
      have := (List.pairwise_append.mp hsorted).2.2
      intro a ha b hb
      exact this a ha b hb
    · rw [concentration_ratio, fdiv, if_neg hTne]
      apply congrArg
      rw [hT]
      rw [show nlargest 5 (manufacturerTotals rows)
          = (List.insertionSort valGE (manufacturerTotals rows)).take 5 from
        rfl]
      field_simp
  · rw [concentration_ratio, manuTotals_exConc,
      show nlargest 5 [("A".data, (100 : ℚ)), ("B".data, 80), ("C".data, 60),
          ("D".data, 40), ("E".data, 20), ("F".data, 10)]
        = [("A".data, (100 : ℚ)), ("B".data, 80), ("C".data, 60),
          ("D".data, 40), ("E".data, 20)] from by decide]
    rw [fdiv]
    norm_num

/-- Witness for the general part of `concentration_ratio_spec`, at the
concrete table `exConc`. -/
theorem concentration_ratio_spec_witness :
    ∃ top other : List (Str × ℚ),
      List.Perm (top ++ other) (manufacturerTotals exConc) ∧
      top.length = min 5 (manufacturerTotals exConc).length ∧
      (∀ a ∈ top, ∀ b ∈ other, b.2 ≤ a.2) ∧
      concentration_ratio exConc
        = PFloat.val ((top.map Prod.snd).sum
            / (exConc.map RawRow.registrations).sum * 100) :=
  concentration_ratio_spec.1 exConc (by
    rw [show exConc.map RawRow.registrations
      = [100, 80, 60, 40, 20, 10] from by decide]
    norm_num)

/-- Witness for `market_share_sum_spec` at the concrete table `exConc`. -/
theorem market_share_sum_spec_witness :
    ∃ qs : List ℚ,
      (category_market_share exConc).map Prod.snd = qs.map PFloat.val ∧
      qs.sum = 100 :=
  market_share_sum_spec exConc (by
    rw [show exConc.map RawRow.registrations
      = [100, 80, 60, 40, 20, 10] from by decide]
    norm_num)

/-! ## Evaluating the seasonality definitions on `exTie` -/

theorem monthNameMean_exTie_jan :
    monthNameMean exTie "January".data = 100 := by
  simp only [monthNameMean]
  rw [show List.filter _ exTie
    = [(⟨2021, 1, "2W".data, "M".data, 100⟩ : RawRow)] from by decide]
  norm_num

theorem monthNameMean_exTie_feb :
    monthNameMean exTie "February".data = 100 := by
  simp only [monthNameMean]
  rw [show List.filter _ exTie
    = [(⟨2021, 2, "2W".data, "M".data, 100⟩ : RawRow)] from by decide]
  norm_num

theorem monthMean_exTie_1 : monthMean exTie 1 = 100 := by
  simp only [monthMean]
  rw [show List.filter _ exTie
    = [(⟨2021, 1, "2W".data, "M".data, 100⟩ : RawRow)] from by decide]
  norm_num

theorem monthMean_exTie_2 : monthMean exTie 2 = 100 := by
  simp only [monthMean]
  rw [show List.filter _ exTie
    = [(⟨2021, 2, "2W".data, "M".data, 100⟩ : RawRow)] from by decide]
  norm_num

/-- **C7** (counterexample).  On `exTie`, January and February have equal
average registrations (100 each).  `identify_trends` (grouping by month
number) reports month 1 = January, the calendar-first of the tied months;
but the dashboard's seasonality insight groups by the month-name string and
reports February, because "February" sorts alphabetically before "January"
— not the first month in calendar order required by the claim. -/
theorem seasonality_tie_cex :
    app_peak_month exTie = some "February".data ∧
    monthNameMean exTie "January".data = 100 ∧
    monthNameMean exTie "February".data = 100 ∧
    monthNamesPresent exTie = ["February".data, "January".data] ∧
    identify_trends_peak exTie = some 1 ∧
    "February".data ≠ "January".data := by
  refine ⟨?_, monthNameMean_exTie_jan, monthNameMean_exTie_feb, by decide,
    ?_, by decide⟩
  · rw [app_peak_month,
      show monthNamesPresent exTie = ["February".data, "January".data] from by
        decide,
      List.map_cons, List.map_cons, List.map_nil,
      monthNameMean_exTie_feb, monthNameMean_exTie_jan]
    decide
  · rw [identify_trends_peak, monthMeanSeries,
      show monthsPresent exTie = [1, 2] from by decide,
      List.map_cons, List.map_cons, List.map_nil,
      monthMean_exTie_1, monthMean_exTie_2]
    decide

/-- Witness for `seasonality_amended` at the concrete table `exTie`. -/
theorem seasonality_amended_witness :
    ∃ m, identify_trends_peak exTie = some m ∧ m ∈ monthsPresent exTie ∧
      (∀ m2 ∈ monthsPresent exTie, monthMean exTie m2 ≤ monthMean exTie m) ∧
      (∀ m2 ∈ monthsPresent exTie, monthMean exTie m2 = monthMean exTie m →
        m ≤ m2) :=
  (seasonality_amended exTie (by decide)).1

/-! ## Evaluating the insight pipeline on `exInsOk` and `exIns` -/

theorem calc_exInsOk : calculate_growth_metrics (toCategoryEvents exInsOk)
    = [⟨"2W".data, 2021, 1, 100, PFloat.nan, PFloat.nan⟩,
       ⟨"2W".data, 2022, 1, 110, PFloat.val 10, PFloat.val 10⟩] := by
  rw [show toCategoryEvents exInsOk
    = [⟨"2W".data, 2021, 1, 100⟩, ⟨"2W".data, 2022, 1, 110⟩] from by decide]
  rw [calculate_growth_metrics]
  rw [show grouped [(⟨"2W".data, 2021, 1, 100⟩ : Event Str),
        ⟨"2W".data, 2022, 1, 110⟩]
      = [⟨"2W".data, 2021, 1, 100⟩, ⟨"2W".data, 2022, 1, 110⟩] from by
    rw [grouped, show aggKeys [(⟨"2W".data, 2021, 1, 100⟩ : Event Str),
        ⟨"2W".data, 2022, 1, 110⟩]
      = [("2W".data, 2021, 1), ("2W".data, 2022, 1)] from by decide]
    rw [List.map_cons, List.map_cons, List.map_nil]
    rw [show groupTotal [(⟨"2W".data, 2021, 1, 100⟩ : Event Str),
        ⟨"2W".data, 2022, 1, 110⟩] ("2W".data, 2021, 1) = 100 from by
      rw [groupTotal, show List.filter _ [(⟨"2W".data, 2021, 1, 100⟩ : Event Str),
          ⟨"2W".data, 2022, 1, 110⟩]
        = [(⟨"2W".data, 2021, 1, 100⟩ : Event Str)] from by decide]
      norm_num]
    rw [show groupTotal [(⟨"2W".data, 2021, 1, 100⟩ : Event Str),
        ⟨"2W".data, 2022, 1, 110⟩] ("2W".data, 2022, 1) = 110 from by
      rw [groupTotal, show List.filter _ [(⟨"2W".data, 2021, 1, 100⟩ : Event Str),
          ⟨"2W".data, 2022, 1, 110⟩]
        = [(⟨"2W".data, 2022, 1, 110⟩ : Event Str)] from by decide]
      norm_num]]
  simp only [growthRows, mkGrowth]
  norm_num [List.find?, pct]

theorem latest_exInsOk : latestRows exInsOk
    = [⟨"2W".data, 2022, 1, 110, PFloat.val 10, PFloat.val 10⟩] := by
  simp only [latestRows]
  rw [calc_exInsOk]
  decide

theorem gl_exInsOk : growthLeader exInsOk
    = .ok (some ("2W".data, PFloat.val 10)) := by
  rw [growthLeader, calc_exInsOk, latest_exInsOk]
  rfl

theorem calc_exIns : calculate_growth_metrics (toCategoryEvents exIns)
    = [⟨"2W".data, 2021, 1, 100, PFloat.nan, PFloat.nan⟩,
       ⟨"2W".data, 2022, 1, 110, PFloat.val 10, PFloat.val 10⟩,
       ⟨"2W".data, 2023, 2, 121, PFloat.nan, PFloat.val 10⟩] := by
  rw [show toCategoryEvents exIns
    = [⟨"2W".data, 2021, 1, 100⟩, ⟨"2W".data, 2022, 1, 110⟩,
       ⟨"2W".data, 2023, 2, 121⟩] from by decide]
  rw [calculate_growth_metrics]
  rw [show grouped [(⟨"2W".data, 2021, 1, 100⟩ : Event Str),
        ⟨"2W".data, 2022, 1, 110⟩, ⟨"2W".data, 2023, 2, 121⟩]
      = [⟨"2W".data, 2021, 1, 100⟩, ⟨"2W".data, 2022, 1, 110⟩,
         ⟨"2W".data, 2023, 2, 121⟩] from by
    rw [grouped, show aggKeys [(⟨"2W".data, 2021, 1, 100⟩ : Event Str),
        ⟨"2W".data, 2022, 1, 110⟩, ⟨"2W".data, 2023, 2, 121⟩]
      = [("2W".data, 2021, 1), ("2W".data, 2022, 1), ("2W".data, 2023, 2)]
      from by decide]
    rw [List.map_cons, List.map_cons, List.map_cons, List.map_nil]
    rw [show groupTotal [(⟨"2W".data, 2021, 1, 100⟩ : Event Str),
        ⟨"2W".data, 2022, 1, 110⟩, ⟨"2W".data, 2023, 2, 121⟩]
          ("2W".data, 2021, 1) = 100 from by
      rw [groupTotal, show List.filter _ [(⟨"2W".data, 2021, 1, 100⟩ : Event Str),
          ⟨"2W".data, 2022, 1, 110⟩, ⟨"2W".data, 2023, 2, 121⟩]
        = [(⟨"2W".data, 2021, 1, 100⟩ : Event Str)] from by decide]
      norm_num]
    rw [show groupTotal [(⟨"2W".data, 2021, 1, 100⟩ : Event Str),
        ⟨"2W".data, 2022, 1, 110⟩, ⟨"2W".data, 2023, 2, 121⟩]
          ("2W".data, 2022, 1) = 110 from by
      rw [groupTotal, show List.filter _ [(⟨"2W".data, 2021, 1, 100⟩ : Event Str),
          ⟨"2W".data, 2022, 1, 110⟩, ⟨"2W".data, 2023, 2, 121⟩]
        = [(⟨"2W".data, 2022, 1, 110⟩ : Event Str)] from by decide]
      norm_num]
    rw [show groupTotal [(⟨"2W".data, 2021, 1, 100⟩ : Event Str),
        ⟨"2W".data, 2022, 1, 110⟩, ⟨"2W".data, 2023, 2, 121⟩]
          ("2W".data, 2023, 2) = 121 from by
      rw [groupTotal, show List.filter _ [(⟨"2W".data, 2021, 1, 100⟩ : Event Str),
          ⟨"2W".data, 2022, 1, 110⟩, ⟨"2W".data, 2023, 2, 121⟩]
        = [(⟨"2W".data, 2023, 2, 121⟩ : Event Str)] from by decide]
      norm_num]]
  simp only [growthRows, mkGrowth]
  norm_num [List.find?, pct]

theorem latest_exIns : latestRows exIns
    = [⟨"2W".data, 2023, 2, 121, PFloat.nan, PFloat.val 10⟩] := by
  simp only [latestRows]
  rw [calc_exIns]
  decide

theorem gl_exIns : growthLeader exIns = .error () := by
  rw [growthLeader, calc_exIns, latest_exIns]
  rfl

theorem cat_exIns : idxmaxQ (categoryTotals exIns) = some "2W".data := by
  rw [show categoryTotals exIns
      = [("2W".data, colTotal exIns RawRow.category "2W".data)] from by
    rw [categoryTotals, show distinctSorted (exIns.map RawRow.category)
      = ["2W".data] from by decide]
    rfl]
  rfl

theorem nameMean_exIns_apr : monthNameMean exIns "April".data = 121 := by
  simp only [monthNameMean]
  rw [show List.filter _ exIns
    = [(⟨2023, 4, "2W".data, "M".data, 121⟩ : RawRow)] from by decide]
  norm_num

theorem nameMean_exIns_jan : monthNameMean exIns "January".data = 105 := by
  simp only [monthNameMean]
  rw [show List.filter _ exIns
    = [(⟨2021, 1, "2W".data, "M".data, 100⟩ : RawRow),
       ⟨2022, 1, "2W".data, "M".data, 110⟩] from by decide]
  norm_num

theorem app_peak_exIns : app_peak_month exIns = some "April".data := by
  rw [app_peak_month,
    show monthNamesPresent exIns = ["April".data, "January".data] from by
      decide,
    List.map_cons, List.map_cons, List.map_nil,
    nameMean_exIns_apr, nameMean_exIns_jan]
  decide

/-- **C5** (counterexample).  `exIns` is non-empty, its category `2W` spans
the year boundaries 2021→2022→2023, and YoY growth is computable somewhere
(the 2022-Q1 output row carries `YoY_Growth = 10`).  Yet the Insights block
returns no findings at all: the most recent year (2023) holds only a Q2
record with `NaN` YoY growth, and `idxmax` over the all-`NaN` latest-year
column raises, where the claim requires exactly 4 findings. -/
theorem derive_insights_error_cex :
    derive_insights exIns = .error () ∧
    exIns ≠ [] ∧
    (∃ r ∈ calculate_growth_metrics (toCategoryEvents exIns),
      r.yoy ≠ PFloat.nan) := by
  refine ⟨?_, by decide, ?_⟩
  · simp [derive_insights, cat_exIns, gl_exIns, app_peak_exIns]
  · rw [calc_exIns]
    exact ⟨⟨"2W".data, 2022, 1, 110, PFloat.val 10, PFloat.val 10⟩,
      by decide, by decide⟩

/-- Witness for the first part of `derive_insights_amended`, at `exInsOk`. -/
theorem derive_insights_amended_witness :
    ∃ dc share gc gv pm,
      derive_insights exInsOk
        = .ok [Insight.leadership dc share, Insight.growthLeader gc gv,
            Insight.concentration (concentration_ratio exInsOk),
            Insight.seasonality pm] :=
  derive_insights_amended.1 exInsOk
    ⟨⟨"2W".data, 2022, 1, 110, PFloat.val 10, PFloat.val 10⟩,
      by rw [latest_exInsOk]; decide, by decide⟩

/-- Witness for `growth_leader_spec`, at `exInsOk`. -/
theorem growth_leader_spec_witness :
    PFloat.val 10 ≠ PFloat.nan ∧
    (∃ r ∈ latestRows exInsOk, r.dims = "2W".data ∧ r.yoy = PFloat.val 10) ∧
    (∀ r ∈ latestRows exInsOk, pfLt (PFloat.val 10) r.yoy = false) ∧
    (∀ r ∈ latestRows exInsOk, r.yoy = PFloat.val 10 → "2W".data ≤ r.dims) :=
  growth_leader_spec exInsOk "2W".data (PFloat.val 10) gl_exInsOk

end Vahan
